import Mathlib

/-!
A shallow embedding of the template reconciliation engine of
`src/template.rs` (crate `i-cant-believe-its-not-bsn`).

Entities, component ids and component values are natural numbers.  A bevy
`Bundle` is embedded as an ordered list of `(ComponentId, Value)` pairs;
inserting a bundle writes each pair in order, overwriting components of the
same id (bevy's `EntityWorldMut::insert` semantics).  The entity store
(`World`) is a bump allocator plus an association list of live entities,
each carrying its component map and its ordered child list
(`bevy_hierarchy`'s `Children`).  Hash sets / hash maps from the source are
embedded as association lists with set/map semantics: insertion replaces an
existing key in place and appends new keys, which fixes one deterministic
iteration order for containers whose iteration order the source leaves
unspecified.
-/

abbrev Entity := Nat
abbrev ComponentId := Nat
abbrev Value := Nat

/-- What the entity store records for one live entity: its component map and
its ordered child list. -/
structure EntityData where
  comps : List (ComponentId × Value)
  children : List Entity
deriving DecidableEq, Repr

/-- The entity store: a bump allocator (`nextId`) plus the association list of
live entities. -/
structure World where
  nextId : Nat
  ents : List (Entity × EntityData)
deriving DecidableEq, Repr

/-- First value bound to a key in an association list (`HashMap of get` and the
backing of `World.lookup`). -/
def alookup {α β : Type} [DecidableEq α] : List (α × β) → α → Option β
  | [], _ => none
  | p :: t, k => if p.1 = k then some p.2 else alookup t k

namespace World

/-- `World::get_entity` — the data of a live entity, `none` when dead. -/
def lookup (w : World) (e : Entity) : Option EntityData :=
  alookup w.ents e

/-- Whether an entity handle currently resolves to a live entity. -/
def isAlive (w : World) (e : Entity) : Bool :=
  (w.lookup e).isSome

/-- `World::spawn_empty` — allocate a fresh entity with no components. -/
def spawnEmpty (w : World) : World × Entity :=
  ({ nextId := w.nextId + 1, ents := w.ents ++ [(w.nextId, ⟨[], []⟩)] }, w.nextId)

/-- Rewrite the data of entity `e` in place (no-op when `e` is dead). -/
def updateData (w : World) (e : Entity) (g : EntityData → EntityData) : World :=
  { w with ents := w.ents.map (fun p => if p.1 = e then (p.1, g p.2) else p) }

end World

/-- Insert one component: overwrite in place when the id is present, append
otherwise (bevy component storage is keyed by component id). -/
def compUpdate (cs : List (ComponentId × Value)) (k : ComponentId) (v : Value) :
    List (ComponentId × Value) :=
  if k ∈ cs.map Prod.fst then cs.map (fun q => if q.1 = k then (q.1, v) else q)
  else cs ++ [(k, v)]

/-- `EntityWorldMut::insert(bundle)` on a component map: write every pair of
the bundle in order. -/
def applyBundle (cs b : List (ComponentId × Value)) : List (ComponentId × Value) :=
  b.foldl (fun acc p => compUpdate acc p.1 p.2) cs

namespace World

/-- `EntityWorldMut::insert(bundle)`. -/
def insertBundle (w : World) (e : Entity) (b : List (ComponentId × Value)) : World :=
  w.updateData e (fun d => { d with comps := applyBundle d.comps b })

/-- `EntityWorldMut::remove_by_id`. -/
def removeById (w : World) (e : Entity) (k : ComponentId) : World :=
  w.updateData e (fun d => { d with comps := d.comps.filter (fun q => decide (q.1 ≠ k)) })

/-- `EntityWorldMut::replace_children` — set the ordered child list. -/
def replaceChildren (w : World) (e : Entity) (es : List Entity) : World :=
  w.updateData e (fun d => { d with children := es })

/-- Remove a single entity from the live set. -/
def despawnOne (w : World) (e : Entity) : World :=
  { w with ents := w.ents.filter (fun p => decide (p.1 ≠ e)) }

/-- Fuelled worker for recursive despawn: kill the entity, then recurse into
the child list it held.  Dead entities (already despawned along another path)
are skipped. -/
def despawnGo : Nat → World → Entity → World
  | 0, w, _ => w
  | n + 1, w, e =>
    match w.lookup e with
    | none => w
    | some d => d.children.foldl (despawnGo n) (w.despawnOne e)

/-- `DespawnRecursiveExt::despawn_recursive` — destroy an entity and all of
its descendants.  The fuel `w.ents.length + 1` bounds the recursion depth: the
entity is killed before its children are visited, so every recursion level
removes one live entity. -/
def despawnRecursive (w : World) (e : Entity) : World :=
  despawnGo (w.ents.length + 1) w e

end World

/-- `Anchor` — identity key of a prototype within one sibling list. -/
inductive Anchor where
  | auto (i : Nat)
  | named (s : String)
deriving DecidableEq, Repr

/-- `Receipt` — what a previous build of one prototype left behind: the entity
it was built on, the component ids it applied, and the receipts of its
children keyed by anchor. -/
inductive Receipt where
  | mk (target : Option Entity) (components : List ComponentId)
      (children : List (Anchor × Receipt))

def Receipt.target : Receipt → Option Entity
  | .mk t _ _ => t

def Receipt.components : Receipt → List ComponentId
  | .mk _ c _ => c

def Receipt.children : Receipt → List (Anchor × Receipt)
  | .mk _ _ ch => ch

/-- `Receipt::default()`. -/
def Receipt.empty : Receipt := .mk none [] []

/-- `HashMap::remove` on a receipt map: the removed binding (if any) and the
remaining entries. -/
def removeA (xs : List (Anchor × Receipt)) (a : Anchor) :
    Option Receipt × List (Anchor × Receipt) :=
  match xs with
  | [] => (none, [])
  | p :: t =>
    if p.1 = a then (some p.2, t)
    else
      let r := removeA t a
      (r.1, p :: r.2)

/-- `HashMap::insert` on a receipt map: replace an existing binding in place,
append a new one. -/
def insertA (xs : List (Anchor × Receipt)) (a : Anchor) (r : Receipt) :
    List (Anchor × Receipt) :=
  if a ∈ xs.map Prod.fst then xs.map (fun p => if p.1 = a then (p.1, r) else p)
  else xs ++ [(a, r)]

/-- `Fragment<B>` — a tree of bundles with optional names (`Template` is the
type-erased `Vec<Box<dyn Prototype>>`; in the embedding both are fragment
lists). -/
inductive Fragment where
  | mk (anchor : Option String) (bundle : List (ComponentId × Value))
      (children : List Fragment)

abbrev Template := List Fragment

/-- `Prototype::name`. -/
def Fragment.name : Fragment → Option String
  | .mk a _ _ => a

def Fragment.bundle : Fragment → List (ComponentId × Value)
  | .mk _ b _ => b

def Fragment.childList : Fragment → List Fragment
  | .mk _ _ cs => cs

/-- One step of the anchor scan (`template.rs` lines 31-38 and 192-199): a
named node keeps the counter, an unnamed node takes `Auto(counter)` and bumps
it. -/
def anchorOf (name : Option String) (i : Nat) : Anchor × Nat :=
  match name with
  | some n => (.named n, i)
  | none => (.auto i, i + 1)

/-- The anchors a sibling list resolves to, scanning left to right with the
counter starting at `i`. -/
def resolveAnchors : List Fragment → Nat → List Anchor
  | [], _ => []
  | c :: cs, i =>
    let p := anchorOf c.name i
    p.1 :: resolveAnchors cs p.2

/-- The component-id set of a bundle (`B::get_component_ids` collected into a
`HashSet`). -/
def bundleIds (b : List (ComponentId × Value)) : List ComponentId :=
  (b.map Prod.fst).dedup

/-- Target resolution (`template.rs` lines 168-172): reuse `receipt.target`
when it still resolves to a live entity, otherwise spawn a fresh one. -/
def resolveTarget (w : World) (r : Receipt) : World × Entity :=
  match r.target with
  | some e => if w.isAlive e then (w, e) else w.spawnEmpty
  | none => w.spawnEmpty

/-- One orphan-cleanup step (`template.rs` lines 216-220): recursively despawn
the receipt's recorded target, if any. -/
def orphanStep (w : World) (p : Anchor × Receipt) : World :=
  match p.2.target with
  | some t => w.despawnRecursive t
  | none => w

mutual

/-- `<Fragment as Prototype>::build` (`template.rs` lines 159-225): resolve
the target entity, insert the bundle, remove the components of the previous
bundle absent from this one, build the children, position them beneath the
entity, despawn the orphans, and return the updated receipt. -/
def Fragment.build : Fragment → World → Receipt → World × Receipt
  | .mk _ bundle cs, w, r =>
    -- Get or spawn the entity.
    let we := resolveTarget w r
    -- Insert the bundle.
    let w2 := we.1.insertBundle we.2 bundle
    -- Remove the components in the previous bundle but not this one.
    let w3 := (r.components.filter (fun c => decide (c ∉ bundleIds bundle))).foldl
      (fun w c => w.removeById we.2 c) w2
    -- Build the children.
    let res := buildChildren cs 0 w3 r.children
    -- Position the children beneath the entity.
    let w5 := res.1.replaceChildren we.2 res.2.2.1
    -- Clear any remaining orphans.
    let w6 := res.2.1.foldl orphanStep w5
    -- Update the receipt for use next frame.
    (w6, .mk (some we.2) (bundleIds bundle) res.2.2.2)

/-- The child loop of `Fragment::build` (`template.rs` lines 184-210): resolve
each child's anchor, pull its receipt out of the old receipt map, recurse, and
collect the child handles in authored order together with the new receipt
map.  Returns (world, unvisited old entries, child handles, new receipt
map). -/
def buildChildren : List Fragment → Nat → World → List (Anchor × Receipt) →
    World × List (Anchor × Receipt) × List Entity × List (Anchor × Receipt)
  | [], _, w, old => (w, old, [], [])
  | c :: cs, i, w, old =>
    let ai := anchorOf c.name i
    let found := removeA old ai.1
    let wr := c.build w (found.1.getD Receipt.empty)
    let rest := buildChildren cs ai.2 wr.1 found.2
    (rest.1, rest.2.1, (wr.2.target.getD 0) :: rest.2.2.1,
      if ai.1 ∈ rest.2.2.2.map Prod.fst then rest.2.2.2
      else (ai.1, wr.2) :: rest.2.2.2)

end

/-- The root receipt registry (`RootReceipt` resource). -/
abbrev RootReceipts := List (Anchor × Receipt)

/-- The root loop of `<Template as BuildTemplate>::build` (`template.rs` lines
28-45): resolve each top-level prototype's anchor, get or create its registry
receipt, build, and store the updated receipt back. -/
def buildRootGo : Template → Nat → World → RootReceipts → World × RootReceipts
  | [], _, w, root => (w, root)
  | p :: ps, i, w, root =>
    let ai := anchorOf p.name i
    let r := (alookup root ai.1).getD Receipt.empty
    let wr := p.build w r
    buildRootGo ps ai.2 wr.1 (insertA root ai.1 wr.2)

/-- `<Template as BuildTemplate>::build`: `init_resource` creates the registry
when absent (`none`), then every top-level prototype is built against it. -/
def buildTemplate (t : Template) (w : World) (root : Option RootReceipts) :
    World × RootReceipts :=
  buildRootGo t 0 w (root.getD [])

/-! ### Association-list and store lemmas -/

theorem alookup_append {α β : Type} [DecidableEq α] (l₁ l₂ : List (α × β)) (k : α) :
    alookup (l₁ ++ l₂) k = (alookup l₁ k).or (alookup l₂ k) := by
  induction l₁ with
  | nil => simp [alookup]
  | cons p t ih =>
    by_cases h : p.1 = k <;> simp [alookup, h, ih]

theorem alookup_some_mem {α β : Type} [DecidableEq α] {l : List (α × β)} {k : α} {v : β}
    (h : alookup l k = some v) : (k, v) ∈ l := by
  induction l with
  | nil => simp [alookup] at h
  | cons p t ih =>
    by_cases hp : p.1 = k
    · simp [alookup, hp] at h
      subst hp h
      exact List.mem_cons_self _ _
    · simp [alookup, hp] at h
      exact List.mem_cons_of_mem _ (ih h)

theorem alookup_eq_none {α β : Type} [DecidableEq α] {l : List (α × β)} {k : α} :
    alookup l k = none ↔ k ∉ l.map Prod.fst := by
  induction l with
  | nil => simp [alookup]
  | cons p t ih =>
    by_cases hp : p.1 = k
    · simp [alookup, hp]
    · have hk : ¬ k = p.1 := fun h => hp h.symm
      simp [alookup, hp, ih, hk]

theorem alookup_isSome_mem_keys {α β : Type} [DecidableEq α] {l : List (α × β)} {k : α}
    (h : k ∈ l.map Prod.fst) : ∃ v, alookup l k = some v := by
  cases hv : alookup l k with
  | some v => exact ⟨v, rfl⟩
  | none => exact absurd (alookup_eq_none.mp hv) (fun hn => hn h)

theorem alookup_map_keep {α β : Type} [DecidableEq α] (l : List (α × β)) (e x : α)
    (g : β → β) :
    alookup (l.map (fun p => if p.1 = e then (p.1, g p.2) else p)) x =
      if x = e then (alookup l x).map g else alookup l x := by
  induction l with
  | nil => by_cases h : x = e <;> simp [alookup, h]
  | cons p t ih =>
    by_cases hp : p.1 = e
    · by_cases hx : x = e
      · subst hx
        simp [alookup, hp]
      · have h1 : ¬ p.1 = x := by rw [hp]; exact fun h => hx h.symm
        have hex : ¬ e = x := fun h => hx h.symm
        simp only [List.map_cons, hp, if_true, alookup, h1, if_false, ih, hx, hex]
    · by_cases hpx : p.1 = x
      · have hx : ¬ x = e := by rw [← hpx]; exact fun h => hp h
        simp [alookup, hp, hpx, hx]
      · simp [alookup, hp, hpx, ih]

theorem alookup_filter_ne {α β : Type} [DecidableEq α] (l : List (α × β)) (e x : α) :
    alookup (l.filter (fun p => decide (p.1 ≠ e))) x =
      if x = e then none else alookup l x := by
  induction l with
  | nil => by_cases h : x = e <;> simp [alookup, h]
  | cons p t ih =>
    rw [List.filter_cons]
    by_cases hp : p.1 = e
    · have hd : decide (p.1 ≠ e) = false := by simp [hp]
      rw [hd]
      simp only [if_false, Bool.false_eq_true]
      by_cases hx : x = e
      · rw [ih, if_pos hx, if_pos hx]
      · have h1 : ¬ p.1 = x := by rw [hp]; exact fun h => hx h.symm
        rw [ih, if_neg hx, if_neg hx]
        simp [alookup, h1]
    · have hd : decide (p.1 ≠ e) = true := by simp [hp]
      rw [hd]
      simp only [if_true]
      by_cases hpx : p.1 = x
      · have hx : ¬ x = e := by rw [← hpx]; exact fun h => hp h
        simp [alookup, hpx, hx]
      · simp only [alookup, hpx, if_false]
        exact ih

namespace World

@[simp] theorem nextId_updateData (w : World) (e : Entity) (g : EntityData → EntityData) :
    (w.updateData e g).nextId = w.nextId := rfl

@[simp] theorem nextId_despawnOne (w : World) (e : Entity) :
    (w.despawnOne e).nextId = w.nextId := rfl

@[simp] theorem nextId_spawn (w : World) : (w.spawnEmpty.1).nextId = w.nextId + 1 := rfl

theorem lookup_updateData (w : World) (e x : Entity) (g : EntityData → EntityData) :
    (w.updateData e g).lookup x = if x = e then (w.lookup x).map g else w.lookup x := by
  simpa [updateData, lookup] using alookup_map_keep w.ents e x g

theorem lookup_despawnOne (w : World) (e x : Entity) :
    (w.despawnOne e).lookup x = if x = e then none else w.lookup x := by
  simpa [despawnOne, lookup] using alookup_filter_ne w.ents e x

/-- Well-formedness of the store: every live id is below the bump allocator
and ids are unique. -/
def WF (w : World) : Prop :=
  (∀ p ∈ w.ents, p.1 < w.nextId) ∧ (w.ents.map Prod.fst).Nodup

theorem WF.lookup_lt {w : World} (hw : w.WF) {x : Entity} {d : EntityData}
    (h : w.lookup x = some d) : x < w.nextId :=
  hw.1 _ (alookup_some_mem h)

theorem WF.lookup_nextId {w : World} (hw : w.WF) : w.lookup w.nextId = none := by
  cases h : w.lookup w.nextId with
  | none => rfl
  | some d => exact absurd (hw.lookup_lt h) (lt_irrefl _)

theorem lookup_spawn {w : World} (hw : w.WF) (x : Entity) :
    (w.spawnEmpty.1).lookup x =
      if x = w.nextId then some ⟨[], []⟩ else w.lookup x := by
  have h0 : w.lookup w.nextId = none := hw.lookup_nextId
  by_cases hx : x = w.nextId
  · subst hx
    simp only [spawnEmpty, lookup] at *
    rw [alookup_append, h0]
    simp [alookup]
  · simp only [spawnEmpty, lookup] at *
    rw [alookup_append]
    have hx' : ¬ w.nextId = x := fun h => hx h.symm
    cases hv : alookup w.ents x with
    | some v => simp [hv, hx]
    | none => simp [hv, alookup, hx, hx']

theorem foldl_inv {α : Type} (f : World → α → World) (P : World → Prop)
    (hf : ∀ w a, P w → P (f w a)) :
    ∀ (l : List α) (w : World), P w → P (l.foldl f w) := by
  intro l
  induction l with
  | nil => intro w hw; exact hw
  | cons a t ih => intro w hw; exact ih (f w a) (hf w a hw)

theorem keys_updateData (w : World) (e : Entity) (g : EntityData → EntityData) :
    (w.updateData e g).ents.map Prod.fst = w.ents.map Prod.fst := by
  simp only [updateData, List.map_map]
  apply List.map_congr_left
  intro p _
  by_cases hp : p.1 = e <;> simp [hp]

theorem WF.updateData {w : World} (hw : w.WF) (e : Entity) (g : EntityData → EntityData) :
    (w.updateData e g).WF := by
  constructor
  · intro p hp
    simp only [World.updateData, List.mem_map] at hp
    obtain ⟨q, hq, hpq⟩ := hp
    have h1 : p.1 = q.1 := by
      subst hpq; by_cases h : q.1 = e <;> simp [h]
    rw [nextId_updateData, h1]
    exact hw.1 q hq
  · rw [keys_updateData]; exact hw.2

theorem WF.spawn {w : World} (hw : w.WF) : (w.spawnEmpty.1).WF := by
  constructor
  · intro p hp
    simp only [spawnEmpty, List.mem_append, List.mem_singleton] at hp
    rcases hp with hp | hp
    · exact Nat.lt_succ_of_lt (hw.1 p hp)
    · subst hp; exact Nat.lt_succ_self _
  · simp only [spawnEmpty, List.map_append, List.map_cons, List.map_nil]
    rw [List.nodup_append]
    refine ⟨hw.2, List.nodup_singleton _, ?_⟩
    intro x hx hx1
    simp only [List.mem_singleton] at hx1
    subst hx1
    simp only [List.mem_map] at hx
    obtain ⟨q, hq, hq1⟩ := hx
    exact absurd (hq1 ▸ hw.1 q hq) (lt_irrefl _)

theorem WF.despawnOne {w : World} (hw : w.WF) (e : Entity) : (w.despawnOne e).WF := by
  have hsub : (w.despawnOne e).ents.Sublist w.ents := List.filter_sublist _
  constructor
  · intro p hp
    exact hw.1 p (hsub.subset hp)
  · exact List.Nodup.sublist (hsub.map Prod.fst) hw.2

theorem despawnGo_nextId : ∀ (n : Nat) (w : World) (e : Entity),
    (despawnGo n w e).nextId = w.nextId := by
  intro n
  induction n with
  | zero => intro w e; rfl
  | succ n ih =>
    intro w e
    cases h : w.lookup e with
    | none => simp [despawnGo, h]
    | some d =>
      simp only [despawnGo, h]
      exact foldl_inv (despawnGo n) (fun w' => w'.nextId = w.nextId)
        (fun w' a hw' => by show (despawnGo n w' a).nextId = w.nextId; rw [ih w' a]; exact hw')
        d.children (w.despawnOne e) rfl

theorem despawnGo_ents_sublist : ∀ (n : Nat) (w : World) (e : Entity),
    (despawnGo n w e).ents.Sublist w.ents := by
  intro n
  induction n with
  | zero => intro w e; exact List.Sublist.refl _
  | succ n ih =>
    intro w e
    cases h : w.lookup e with
    | none => simp [despawnGo, h]
    | some d =>
      simp only [despawnGo, h]
      have hbase : (w.despawnOne e).ents.Sublist w.ents := List.filter_sublist _
      exact foldl_inv (despawnGo n) (fun w' => w'.ents.Sublist w.ents)
        (fun w' a hw' => List.Sublist.trans (ih w' a) hw') d.children (w.despawnOne e) hbase

theorem WF.despawnGo {w : World} (hw : w.WF) (n : Nat) (e : Entity) :
    (World.despawnGo n w e).WF := by
  have hsub := despawnGo_ents_sublist n w e
  constructor
  · intro p hp
    rw [despawnGo_nextId]
    exact hw.1 p (hsub.subset hp)
  · exact List.Nodup.sublist (hsub.map Prod.fst) hw.2

theorem lookup_none_of_sublist {w w' : World} (hsub : w'.ents.Sublist w.ents)
    {x : Entity} (h : w.lookup x = none) : w'.lookup x = none := by
  rw [lookup, alookup_eq_none] at h ⊢
  exact fun hx => h ((hsub.map Prod.fst).subset hx)

theorem despawnGo_dead {w : World} {x : Entity} (h : w.lookup x = none)
    (n : Nat) (e : Entity) : (despawnGo n w e).lookup x = none :=
  lookup_none_of_sublist (despawnGo_ents_sublist n w e) h

theorem despawnGo_lookup_or : ∀ (n : Nat) (w : World) (e x : Entity),
    (despawnGo n w e).lookup x = none ∨ (despawnGo n w e).lookup x = w.lookup x := by
  intro n
  induction n with
  | zero => intro w e x; right; rfl
  | succ n ih =>
    intro w e x
    cases h : w.lookup e with
    | none => right; simp [despawnGo, h]
    | some d =>
      simp only [despawnGo, h]
      have hbase : (w.despawnOne e).lookup x = none ∨ (w.despawnOne e).lookup x = w.lookup x := by
        rw [lookup_despawnOne]
        by_cases hx : x = e <;> simp [hx]
      exact foldl_inv (despawnGo n)
        (fun w' => w'.lookup x = none ∨ w'.lookup x = w.lookup x)
        (fun w' a hw' => by
          rcases hw' with hn | heq
          · left; exact despawnGo_dead hn n a
          · rcases ih w' a x with hn | heq2
            · left; exact hn
            · right; rw [heq2, heq])
        d.children (w.despawnOne e) hbase

end World

/-! ### Bundle and component-map lemmas -/

theorem keys_compUpdate_mem (cs : List (ComponentId × Value)) (k : ComponentId) (v : Value)
    (j : ComponentId) :
    j ∈ (compUpdate cs k v).map Prod.fst ↔ j ∈ cs.map Prod.fst ∨ j = k := by
  by_cases hk : k ∈ cs.map Prod.fst
  · simp only [compUpdate, hk, if_true, List.map_map]
    have hkeys : (cs.map (fun q => if q.1 = k then (q.1, v) else q)).map Prod.fst
        = cs.map Prod.fst := by
      rw [List.map_map]
      apply List.map_congr_left
      intro q _
      by_cases h : q.1 = k <;> simp [h]
    rw [← List.map_map, hkeys]
    constructor
    · exact fun h => Or.inl h
    · rintro (h | h)
      · exact h
      · subst h; exact hk
  · simp only [compUpdate, hk, if_false, List.map_append, List.map_cons, List.map_nil]
    simp [List.mem_append]

theorem keys_applyBundle_mem (b cs : List (ComponentId × Value)) (j : ComponentId) :
    j ∈ (applyBundle cs b).map Prod.fst ↔ j ∈ cs.map Prod.fst ∨ j ∈ b.map Prod.fst := by
  induction b generalizing cs with
  | nil => simp [applyBundle]
  | cons p t ih =>
    show j ∈ (applyBundle (compUpdate cs p.1 p.2) t).map Prod.fst ↔ _
    rw [ih, keys_compUpdate_mem]
    simp only [List.map_cons, List.mem_cons]
    tauto

theorem alookup_compUpdate (cs : List (ComponentId × Value)) (k : ComponentId) (v : Value)
    (j : ComponentId) :
    alookup (compUpdate cs k v) j = if j = k then some v else alookup cs j := by
  by_cases hk : k ∈ cs.map Prod.fst
  · simp only [compUpdate, hk, if_true]
    rw [alookup_map_keep cs k j (fun _ => v)]
    by_cases hj : j = k
    · subst hj
      obtain ⟨w, hw⟩ := alookup_isSome_mem_keys hk
      simp [hw]
    · simp [hj]
  · simp only [compUpdate, hk, if_false]
    rw [alookup_append]
    by_cases hj : j = k
    · subst hj
      rw [alookup_eq_none.mpr hk]
      simp [alookup]
    · cases hv : alookup cs j with
      | some v' => simp [hv, hj]
      | none =>
        have hjk : ¬ k = j := fun h => hj h.symm
        simp [hv, hj, alookup, hjk]

/-- The value the last write of a key in a bundle leaves behind. -/
def lastVal : List (ComponentId × Value) → ComponentId → Option Value
  | [], _ => none
  | p :: t, k => (lastVal t k).or (if p.1 = k then some p.2 else none)

theorem alookup_applyBundle (b cs : List (ComponentId × Value)) (j : ComponentId) :
    alookup (applyBundle cs b) j = (lastVal b j).or (alookup cs j) := by
  induction b generalizing cs with
  | nil => simp [applyBundle, lastVal]
  | cons p t ih =>
    show alookup (applyBundle (compUpdate cs p.1 p.2) t) j = _
    rw [ih, alookup_compUpdate]
    simp only [lastVal]
    cases lastVal t j with
    | some v => simp
    | none =>
      by_cases hj : j = p.1
      · subst hj; simp
      · have hpj : ¬ p.1 = j := fun h => hj h.symm
        simp [hj, hpj]

theorem lastVal_eq_none_of_not_mem {b : List (ComponentId × Value)} {k : ComponentId}
    (h : k ∉ b.map Prod.fst) : lastVal b k = none := by
  induction b with
  | nil => rfl
  | cons p t ih =>
    simp only [List.map_cons, List.mem_cons, not_or] at h
    have hp : ¬ p.1 = k := fun hh => h.1 hh.symm
    simp [lastVal, ih h.2, hp]

theorem lastVal_isSome_of_mem {b : List (ComponentId × Value)} {k : ComponentId}
    (h : k ∈ b.map Prod.fst) : ∃ v, lastVal b k = some v := by
  induction b with
  | nil => simp at h
  | cons p t ih =>
    by_cases ht : k ∈ t.map Prod.fst
    · obtain ⟨v, hv⟩ := ih ht
      exact ⟨v, by simp [lastVal, hv]⟩
    · simp only [List.map_cons, List.mem_cons] at h
      rcases h with h | h
      · refine ⟨p.2, ?_⟩
        simp [lastVal, lastVal_eq_none_of_not_mem ht, h.symm]
      · exact absurd h ht

theorem filter_compUpdate_entries (cs : List (ComponentId × Value)) (k : ComponentId)
    (v : Value) : ∀ q ∈ compUpdate cs k v, q.1 = k → q.2 = v := by
  intro q hq hqk
  by_cases hk : k ∈ cs.map Prod.fst
  · simp only [compUpdate, hk, if_true, List.mem_map] at hq
    obtain ⟨p, _, hp⟩ := hq
    subst hp
    by_cases h : p.1 = k
    · simp [h]
    · simp only [h, if_false] at hqk
  · simp only [compUpdate, hk, if_false, List.mem_append, List.mem_singleton] at hq
    rcases hq with hq | hq
    · exact absurd (hqk ▸ List.mem_map_of_mem Prod.fst hq) hk
    · rw [hq]

theorem entries_unwritten (b : List (ComponentId × Value)) (k : ComponentId)
    (hb : lastVal b k = none) (cs : List (ComponentId × Value)) :
    ∀ q ∈ applyBundle cs b, q.1 = k → q ∈ cs := by
  induction b generalizing cs with
  | nil => intro q hq _; exact hq
  | cons p t ih =>
    intro q hq hqk
    simp only [lastVal] at hb
    have hbt : lastVal t k = none := by
      cases h : lastVal t k with
      | none => rfl
      | some v => rw [h] at hb; simp at hb
    have hpk : ¬ p.1 = k := by
      intro h
      rw [hbt, h] at hb
      simp at hb
    have hq' : q ∈ compUpdate cs p.1 p.2 := ih hbt (compUpdate cs p.1 p.2) q hq hqk
    by_cases hk : p.1 ∈ cs.map Prod.fst
    · simp only [compUpdate, hk, if_true, List.mem_map] at hq'
      obtain ⟨r, hr, hrq⟩ := hq'
      by_cases h : r.1 = p.1
      · subst hrq
        simp only [h, if_true] at hqk ⊢
        exact absurd hqk hpk
      · subst hrq
        simp only [h, if_false]
        exact hr
    · simp only [compUpdate, hk, if_false, List.mem_append, List.mem_singleton] at hq'
      rcases hq' with hq' | hq'
      · exact hq'
      · subst hq'
        exact absurd hqk hpk

theorem entries_lastVal (b : List (ComponentId × Value)) :
    ∀ (cs : List (ComponentId × Value)), ∀ q ∈ applyBundle cs b, ∀ v,
      lastVal b q.1 = some v → q.2 = v := by
  induction b with
  | nil => intro cs q _ v hv; simp [lastVal] at hv
  | cons p t ih =>
    intro cs q hq v hv
    simp only [lastVal] at hv
    cases ht : lastVal t q.1 with
    | some u =>
      rw [ht] at hv
      have huv : u = v := by simpa using hv
      subst huv
      exact ih (compUpdate cs p.1 p.2) q hq u ht
    | none =>
      rw [ht] at hv
      by_cases hpq : p.1 = q.1
      · rw [if_pos hpq] at hv
        have hv2 : p.2 = v := by simpa using hv
        have hmem : q ∈ compUpdate cs p.1 p.2 :=
          entries_unwritten t q.1 ht (compUpdate cs p.1 p.2) q hq rfl
        rw [← hv2]
        exact filter_compUpdate_entries cs p.1 p.2 q hmem hpq.symm
      · rw [if_neg hpq] at hv
        simp at hv

theorem applyBundle_allPresent (b : List (ComponentId × Value)) :
    ∀ (cs : List (ComponentId × Value)), (∀ p ∈ b, p.1 ∈ cs.map Prod.fst) →
      applyBundle cs b = cs.map (fun q => (q.1, (lastVal b q.1).getD q.2)) := by
  induction b with
  | nil =>
    intro cs _
    simp [applyBundle, lastVal]
  | cons p t ih =>
    intro cs hall
    have hp : p.1 ∈ cs.map Prod.fst := hall p (List.mem_cons_self _ _)
    show applyBundle (compUpdate cs p.1 p.2) t = _
    have hall' : ∀ q ∈ t, q.1 ∈ (compUpdate cs p.1 p.2).map Prod.fst := by
      intro q hq
      rw [keys_compUpdate_mem]
      exact Or.inl (hall q (List.mem_cons_of_mem _ hq))
    rw [ih _ hall']
    simp only [compUpdate, hp, if_true, List.map_map]
    apply List.map_congr_left
    intro q _
    by_cases hq : q.1 = p.1
    · simp only [Function.comp_apply, hq, if_true, lastVal]
      cases hlv : lastVal t p.1 with
      | some u => simp [hlv, hq]
      | none => simp [hlv, hq]
    · have hq' : ¬ p.1 = q.1 := fun h => hq h.symm
      simp only [Function.comp_apply, hq, if_false, lastVal]
      cases hlv : lastVal t q.1 with
      | some u => simp [hlv, hq']
      | none => simp [hlv, hq']

/-- Re-inserting a bundle that has already been applied changes nothing: the
key set is already present and every written key already holds the bundle's
last written value. -/
theorem applyBundle_applyBundle (cs b : List (ComponentId × Value)) :
    applyBundle (applyBundle cs b) b = applyBundle cs b := by
  have hall : ∀ p ∈ b, p.1 ∈ (applyBundle cs b).map Prod.fst := by
    intro p hp
    rw [keys_applyBundle_mem]
    exact Or.inr (List.mem_map_of_mem Prod.fst hp)
  rw [applyBundle_allPresent b _ hall]
  have : ∀ q ∈ applyBundle cs b, (fun q => (q.1, (lastVal b q.1).getD q.2)) q = q := by
    intro q hq
    cases hlv : lastVal b q.1 with
    | none => simp [hlv]
    | some v =>
      have h2 := entries_lastVal b cs q hq v hlv
      simp only [hlv, Option.getD_some]
      rw [← h2]
  rw [List.map_congr_left this]
  exact List.map_id _

/-! ### Collapsing the removal loop into a single store update -/

namespace World

theorem updateData_updateData (w : World) (e : Entity) (g h : EntityData → EntityData) :
    (w.updateData e g).updateData e h = w.updateData e (fun d => h (g d)) := by
  simp only [updateData, List.map_map]
  congr 1
  apply List.map_congr_left
  intro p _
  by_cases hp : p.1 = e <;> simp [hp]

theorem updateData_id (w : World) : w.updateData e (fun d => d) = w := by
  cases w with
  | mk n ents =>
    simp only [updateData]
    congr 1
    have : ∀ p ∈ ents, (fun p => if p.1 = e then (p.1, p.2) else p) p = p := by
      intro p _
      show (if p.1 = e then (p.1, p.2) else p) = p
      by_cases hp : p.1 = e
      · rw [if_pos hp]
      · rw [if_neg hp]
    rw [List.map_congr_left this]
    exact List.map_id _

theorem foldl_removeById (l : List ComponentId) (w : World) (e : Entity) :
    l.foldl (fun w' c => w'.removeById e c) w =
      w.updateData e (fun d => { d with comps := d.comps.filter (fun q => decide (q.1 ∉ l)) }) := by
  induction l generalizing w with
  | nil =>
    show w = _
    have h1 : ∀ (d : EntityData),
        ({ d with comps := d.comps.filter (fun q => decide (q.1 ∉ ([] : List ComponentId))) })
          = d := by
      intro d
      simp
    rw [show (fun d => { d with comps := d.comps.filter (fun q => decide (q.1 ∉ ([] : List ComponentId))) }) = (fun d : EntityData => d) from funext h1]
    exact (updateData_id w).symm
  | cons c t ih =>
    show t.foldl _ (w.removeById e c) = _
    rw [ih (w.removeById e c)]
    rw [removeById, updateData_updateData]
    congr 1
    funext d
    simp only []
    congr 1
    rw [List.filter_filter]
    apply List.filter_congr
    intro q _
    by_cases h1 : q.1 = c <;> by_cases h2 : q.1 ∈ t <;> simp [h1, h2]

end World

/-! ### Receipt targets, well-formed fragments, and build invariants -/

mutual

/-- Every entity handle recorded anywhere in a receipt tree. -/
def Receipt.targets : Receipt → List Entity
  | .mk t _ ch => t.toList ++ targetsPairs ch

def targetsPairs : List (Anchor × Receipt) → List Entity
  | [] => []
  | p :: t => p.2.targets ++ targetsPairs t

end

/-- Pairwise distinctness of a resolved anchor list. -/
def anchorsNodup : List Anchor → Bool
  | [] => true
  | a :: as => (!(as.contains a)) && anchorsNodup as

mutual

/-- The caller contract of the spec: anchors are unique within every sibling
list of the fragment. -/
def Fragment.wf : Fragment → Bool
  | .mk _ _ cs => anchorsNodup (resolveAnchors cs 0) && wfL cs

def wfL : List Fragment → Bool
  | [] => true
  | c :: cs => c.wf && wfL cs

end

/-- The caller contract at the root: unique top-level anchors and well-formed
prototypes. -/
def Template.wfT (t : Template) : Bool :=
  anchorsNodup (resolveAnchors t 0) && wfL t

theorem anchorsNodup_cons {a : Anchor} {as : List Anchor} :
    anchorsNodup (a :: as) = true ↔ a ∉ as ∧ anchorsNodup as = true := by
  simp [anchorsNodup, List.contains]

theorem anchorsNodup_nodup : ∀ {as : List Anchor}, anchorsNodup as = true → as.Nodup := by
  intro as
  induction as with
  | nil => intro _; exact List.nodup_nil
  | cons a t ih =>
    intro h
    rw [anchorsNodup_cons] at h
    exact List.nodup_cons.mpr ⟨h.1, ih h.2⟩

theorem wfL_mem {cs : List Fragment} (h : wfL cs = true) {c : Fragment} (hc : c ∈ cs) :
    c.wf = true := by
  induction cs with
  | nil => simp at hc
  | cons x t ih =>
    simp only [wfL, Bool.and_eq_true] at h
    rcases List.mem_cons.mp hc with hc | hc
    · subst hc; exact h.1
    · exact ih h.2 hc

theorem Fragment.wf_parts {nm : Option String} {b : List (ComponentId × Value)}
    {cs : List Fragment} (h : (Fragment.mk nm b cs).wf = true) :
    anchorsNodup (resolveAnchors cs 0) = true ∧ wfL cs = true := by
  simpa [Fragment.wf, Bool.and_eq_true] using h

mutual

/-- The receipt subtree is realized in the store: every recorded target is a
live entity whose stored child list is exactly the receipt's child targets,
and sibling anchors are distinct. -/
inductive Realized : World → Receipt → Prop where
  | mk : ∀ (w : World) (e : Entity) (comp : List ComponentId)
      (ch : List (Anchor × Receipt)) (d : EntityData),
      w.lookup e = some d →
      d.children = ch.map (fun p => p.2.target.getD 0) →
      (ch.map Prod.fst).Nodup →
      RealizedPairs w ch →
      Realized w (.mk (some e) comp ch)

inductive RealizedPairs : World → List (Anchor × Receipt) → Prop where
  | nil : ∀ w, RealizedPairs w []
  | cons : ∀ (w : World) (p : Anchor × Receipt) (t : List (Anchor × Receipt)),
      Realized w p.2 → RealizedPairs w t → RealizedPairs w (p :: t)

end

/-- A receipt a build can safely be replayed against: realized, with globally
distinct recorded entities. -/
def SepR (w : World) (r : Receipt) : Prop :=
  Realized w r ∧ r.targets.Nodup

mutual

/-- The invariant a fresh build establishes: the receipt records exactly what
the build left in the store for this fragment — a live target entity whose
component map absorbs a re-insert of the bundle, the recorded component-id
set, the stored child list, and matching child receipts keyed by the resolved
anchors. -/
inductive Matches : World → Fragment → Receipt → Prop where
  | mk : ∀ (w : World) (nm : Option String) (b : List (ComponentId × Value))
      (cs : List Fragment) (e : Entity) (d : EntityData)
      (ch : List (Anchor × Receipt)),
      w.lookup e = some d →
      applyBundle d.comps b = d.comps →
      d.children = ch.map (fun p => p.2.target.getD 0) →
      ch.map Prod.fst = resolveAnchors cs 0 →
      MatchesPairs w cs ch →
      Matches w (.mk nm b cs) (.mk (some e) (bundleIds b) ch)

inductive MatchesPairs : World → List Fragment → List (Anchor × Receipt) → Prop where
  | nil : ∀ w, MatchesPairs w [] []
  | cons : ∀ (w : World) (c : Fragment) (p : Anchor × Receipt)
      (cs : List Fragment) (t : List (Anchor × Receipt)),
      Matches w c p.2 → MatchesPairs w cs t → MatchesPairs w (c :: cs) (p :: t)

end

/-! ### Receipt-map characterizations -/

theorem removeA_eq (xs : List (Anchor × Receipt)) (a : Anchor)
    (h : (xs.map Prod.fst).Nodup) :
    removeA xs a = (alookup xs a, xs.filter (fun p => decide (p.1 ≠ a))) := by
  induction xs with
  | nil => simp [removeA, alookup]
  | cons p t ih =>
    simp only [List.map_cons, List.nodup_cons] at h
    by_cases hp : p.1 = a
    · have hnot : a ∉ t.map Prod.fst := hp ▸ h.1
      have ht : t.filter (fun p => decide (p.1 ≠ a)) = t := by
        apply List.filter_eq_self.mpr
        intro q hq
        simp only [decide_eq_true_eq]
        intro hqa
        exact hnot (hqa ▸ List.mem_map_of_mem Prod.fst hq)
      have hd : decide (p.1 ≠ a) = false := by simp [hp]
      simp only [removeA, alookup, List.filter_cons, hd, Bool.false_eq_true, if_false]
      rw [if_pos hp, if_pos hp, ht]
    · have hd : decide (p.1 ≠ a) = true := by simp [hp]
      simp [removeA, hp, alookup, List.filter_cons, hd, ih h.2]

theorem insertA_not_mem {xs : List (Anchor × Receipt)} {a : Anchor} (r : Receipt)
    (h : a ∉ xs.map Prod.fst) : insertA xs a r = xs ++ [(a, r)] := by
  simp [insertA, h]

theorem insertA_self {xs : List (Anchor × Receipt)} {a : Anchor} {r : Receipt}
    (hmem : a ∈ xs.map Prod.fst) (h : ∀ p ∈ xs, p.1 = a → p.2 = r) :
    insertA xs a r = xs := by
  simp only [insertA, hmem, if_true]
  have : ∀ p ∈ xs, (fun p => if p.1 = a then (p.1, r) else p) p = p := by
    intro p hp
    show (if p.1 = a then (p.1, r) else p) = p
    by_cases hpa : p.1 = a
    · rw [if_pos hpa, ← h p hp hpa]
    · rw [if_neg hpa]
  rw [List.map_congr_left this]
  exact List.map_id _

theorem Receipt.targets_mk (t : Option Entity) (comp : List ComponentId)
    (ch : List (Anchor × Receipt)) :
    (Receipt.mk t comp ch).targets = t.toList ++ targetsPairs ch := by
  simp [Receipt.targets]

theorem targetsPairs_cons (p : Anchor × Receipt) (t : List (Anchor × Receipt)) :
    targetsPairs (p :: t) = p.2.targets ++ targetsPairs t := by
  simp [targetsPairs]

theorem mem_targetsPairs {x : Entity} {ch : List (Anchor × Receipt)} :
    x ∈ targetsPairs ch ↔ ∃ p ∈ ch, x ∈ p.2.targets := by
  induction ch with
  | nil => simp [targetsPairs]
  | cons p t ih => simp [targetsPairs, ih]

mutual

theorem Matches.agreeM (f : Fragment) (w w' : World) (r : Receipt)
    (h : Matches w f r) (hag : ∀ x ∈ r.targets, w'.lookup x = w.lookup x) :
    Matches w' f r := by
  cases h with
  | mk nm b cs e d ch hl hb hch hkeys hmp =>
    have he : e ∈ (Receipt.mk (some e) (bundleIds b) ch).targets := by
      rw [Receipt.targets_mk]; simp
    have hag' : ∀ x ∈ targetsPairs ch, w'.lookup x = w.lookup x := by
      intro x hx
      apply hag
      rw [Receipt.targets_mk]
      simp only [Option.toList_some, List.cons_append, List.nil_append, List.mem_cons]
      exact Or.inr hx
    have hl' : w'.lookup e = some d := by rw [hag e he]; exact hl
    exact Matches.mk w' nm b cs e d ch hl' hb hch hkeys
      (MatchesPairs.agreeMP cs w w' ch hmp hag')

theorem MatchesPairs.agreeMP (cs : List Fragment) (w w' : World)
    (ch : List (Anchor × Receipt)) (h : MatchesPairs w cs ch)
    (hag : ∀ x ∈ targetsPairs ch, w'.lookup x = w.lookup x) : MatchesPairs w' cs ch := by
  cases h with
  | nil => exact MatchesPairs.nil w'
  | cons c p cs' t hm hmp =>
    have hag1 : ∀ x ∈ p.2.targets, w'.lookup x = w.lookup x := by
      intro x hx
      exact hag x (by rw [targetsPairs_cons]; exact List.mem_append_left _ hx)
    have hag2 : ∀ x ∈ targetsPairs t, w'.lookup x = w.lookup x := by
      intro x hx
      exact hag x (by rw [targetsPairs_cons]; exact List.mem_append_right _ hx)
    exact MatchesPairs.cons w' c p cs' t (Matches.agreeM c w w' p.2 hm hag1)
      (MatchesPairs.agreeMP cs' w w' t hmp hag2)

end

mutual

theorem Realized.agreeR (r : Receipt) (w w' : World)
    (h : Realized w r) (hag : ∀ x ∈ r.targets, w'.lookup x = w.lookup x) :
    Realized w' r := by
  cases h with
  | mk e comp ch d hl hch hkeys hrp =>
    have he : e ∈ (Receipt.mk (some e) comp ch).targets := by
      rw [Receipt.targets_mk]; simp
    have hag' : ∀ x ∈ targetsPairs ch, w'.lookup x = w.lookup x := by
      intro x hx
      apply hag
      rw [Receipt.targets_mk]
      simp only [Option.toList_some, List.cons_append, List.nil_append, List.mem_cons]
      exact Or.inr hx
    have hl' : w'.lookup e = some d := by rw [hag e he]; exact hl
    exact Realized.mk w' e comp ch d hl' hch hkeys (RealizedPairs.agreeRP ch w w' hrp hag')

theorem RealizedPairs.agreeRP (ch : List (Anchor × Receipt)) (w w' : World)
    (h : RealizedPairs w ch)
    (hag : ∀ x ∈ targetsPairs ch, w'.lookup x = w.lookup x) : RealizedPairs w' ch := by
  cases h with
  | nil => exact RealizedPairs.nil w'
  | cons p t hr hrp =>
    have hag1 : ∀ x ∈ p.2.targets, w'.lookup x = w.lookup x := by
      intro x hx
      exact hag x (by rw [targetsPairs_cons]; exact List.mem_append_left _ hx)
    have hag2 : ∀ x ∈ targetsPairs t, w'.lookup x = w.lookup x := by
      intro x hx
      exact hag x (by rw [targetsPairs_cons]; exact List.mem_append_right _ hx)
    exact RealizedPairs.cons w' p t (Realized.agreeR p.2 w w' hr hag1)
      (RealizedPairs.agreeRP t w w' hrp hag2)

end

mutual

theorem Realized.aliveR (r : Receipt) (w : World) (h : Realized w r) :
    ∀ x ∈ r.targets, ∃ d, w.lookup x = some d := by
  cases h with
  | mk e comp ch d hl hch hkeys hrp =>
    intro x hx
    rw [Receipt.targets_mk] at hx
    simp only [Option.toList_some, List.cons_append, List.nil_append, List.mem_cons] at hx
    rcases hx with hx | hx
    · subst hx; exact ⟨d, hl⟩
    · exact RealizedPairs.aliveRP ch w hrp x hx

theorem RealizedPairs.aliveRP (ch : List (Anchor × Receipt)) (w : World)
    (h : RealizedPairs w ch) : ∀ x ∈ targetsPairs ch, ∃ d, w.lookup x = some d := by
  cases h with
  | nil => intro x hx; simp [targetsPairs] at hx
  | cons p t hr hrp =>
    intro x hx
    rw [targetsPairs_cons] at hx
    rcases List.mem_append.mp hx with hx | hx
    · exact Realized.aliveR p.2 w hr x hx
    · exact RealizedPairs.aliveRP t w hrp x hx

end

mutual

theorem Matches.realizedM (f : Fragment) (w : World) (r : Receipt)
    (h : Matches w f r) (hwf : f.wf = true) : Realized w r := by
  cases h with
  | mk nm b cs e d ch hl hb hch hkeys hmp =>
    have hparts := Fragment.wf_parts hwf
    have hnd : (ch.map Prod.fst).Nodup := by
      rw [hkeys]; exact anchorsNodup_nodup hparts.1
    exact Realized.mk w e (bundleIds b) ch d hl hch hnd
      (MatchesPairs.realizedMP cs w ch hmp hparts.2)

theorem MatchesPairs.realizedMP (cs : List Fragment) (w : World)
    (ch : List (Anchor × Receipt)) (h : MatchesPairs w cs ch) (hwf : wfL cs = true) :
    RealizedPairs w ch := by
  cases h with
  | nil => exact RealizedPairs.nil w
  | cons c p cs' t hm hmp =>
    simp only [wfL, Bool.and_eq_true] at hwf
    exact RealizedPairs.cons w p t (Matches.realizedM c w p.2 hm hwf.1)
      (MatchesPairs.realizedMP cs' w t hmp hwf.2)

end

/-! ### Build pipeline unfolding -/

theorem resolveTarget_none {w : World} {r : Receipt} (h : r.target = none) :
    resolveTarget w r = w.spawnEmpty := by
  simp [resolveTarget, h]

theorem resolveTarget_empty (w : World) : resolveTarget w Receipt.empty = w.spawnEmpty :=
  resolveTarget_none rfl

theorem resolveTarget_live {w : World} {r : Receipt} {e : Entity}
    (h : r.target = some e) (ha : w.isAlive e = true) : resolveTarget w r = (w, e) := by
  simp [resolveTarget, h, ha]

theorem resolveTarget_stale {w : World} {r : Receipt} {e : Entity}
    (h : r.target = some e) (ha : w.isAlive e = false) :
    resolveTarget w r = w.spawnEmpty := by
  simp [resolveTarget, h, ha]

theorem Fragment.build_pieces (nm : Option String) {b : List (ComponentId × Value)}
    {cs : List Fragment} {w : World} {r : Receipt} {w1 : World} {e : Entity}
    {w3 w4 : World} {rem : List (Anchor × Receipt)} {es : List Entity}
    {recs : List (Anchor × Receipt)}
    (h1 : resolveTarget w r = (w1, e))
    (h2 : (r.components.filter (fun c => decide (c ∉ bundleIds b))).foldl
      (fun w' c => w'.removeById e c) (w1.insertBundle e b) = w3)
    (h3 : buildChildren cs 0 w3 r.children = (w4, rem, es, recs)) :
    Fragment.build (.mk nm b cs) w r =
      (rem.foldl orphanStep (w4.replaceChildren e es), .mk (some e) (bundleIds b) recs) := by
  simp only [Fragment.build, h1, h2, h3]

theorem buildChildren_nil (i : Nat) (w : World) (old : List (Anchor × Receipt)) :
    buildChildren [] i w old = (w, old, [], []) := by
  simp [buildChildren]

theorem buildChildren_cons_pieces {c : Fragment} {cs : List Fragment} {i : Nat}
    {w : World} {old : List (Anchor × Receipt)} {a : Anchor} {i' : Nat}
    {found : Option Receipt} {old' : List (Anchor × Receipt)} {w1 : World}
    {cr' : Receipt} {w2 : World} {rem : List (Anchor × Receipt)} {es : List Entity}
    {recs : List (Anchor × Receipt)}
    (h1 : anchorOf c.name i = (a, i'))
    (h2 : removeA old a = (found, old'))
    (h3 : Fragment.build c w (found.getD Receipt.empty) = (w1, cr'))
    (h4 : buildChildren cs i' w1 old' = (w2, rem, es, recs)) :
    buildChildren (c :: cs) i w old =
      (w2, rem, (cr'.target.getD 0) :: es,
        if a ∈ recs.map Prod.fst then recs else (a, cr') :: recs) := by
  simp only [buildChildren, h1, h2, h3, h4]

theorem resolveAnchors_cons (c : Fragment) (cs : List Fragment) (i : Nat) :
    resolveAnchors (c :: cs) i =
      (anchorOf c.name i).1 :: resolveAnchors cs (anchorOf c.name i).2 := by
  simp [resolveAnchors]

/-! ### Store-operation corollaries -/

namespace World

@[simp] theorem nextId_insertBundle (w : World) (e : Entity) (b : List (ComponentId × Value)) :
    (w.insertBundle e b).nextId = w.nextId := rfl

@[simp] theorem nextId_removeById (w : World) (e : Entity) (k : ComponentId) :
    (w.removeById e k).nextId = w.nextId := rfl

@[simp] theorem nextId_replaceChildren (w : World) (e : Entity) (es : List Entity) :
    (w.replaceChildren e es).nextId = w.nextId := rfl

theorem lookup_insertBundle (w : World) (e x : Entity) (b : List (ComponentId × Value)) :
    (w.insertBundle e b).lookup x =
      if x = e then (w.lookup x).map (fun d => { d with comps := applyBundle d.comps b })
      else w.lookup x :=
  lookup_updateData w e x _

theorem lookup_replaceChildren (w : World) (e x : Entity) (es : List Entity) :
    (w.replaceChildren e es).lookup x =
      if x = e then (w.lookup x).map (fun d => { d with children := es })
      else w.lookup x :=
  lookup_updateData w e x _

/-- A well-formedness predicate transfer for the single collapsed removal pass. -/
theorem lookup_removeAll (l : List ComponentId) (w : World) (e x : Entity) :
    (l.foldl (fun w' c => w'.removeById e c) w).lookup x =
      if x = e then
        (w.lookup x).map
          (fun d => { d with comps := d.comps.filter (fun q => decide (q.1 ∉ l)) })
      else w.lookup x := by
  rw [foldl_removeById]
  exact lookup_updateData w e x _

theorem nextId_removeAll (l : List ComponentId) (w : World) (e : Entity) :
    (l.foldl (fun w' c => w'.removeById e c) w).nextId = w.nextId := by
  rw [foldl_removeById]
  rfl

theorem WF.removeAll {w : World} (hw : w.WF) (l : List ComponentId) (e : Entity) :
    (l.foldl (fun w' c => w'.removeById e c) w).WF := by
  rw [foldl_removeById]
  exact hw.updateData e _

theorem despawnRecursive_nextId (w : World) (e : Entity) :
    (w.despawnRecursive e).nextId = w.nextId :=
  despawnGo_nextId _ w e

theorem WF.despawnRecursive {w : World} (hw : w.WF) (e : Entity) :
    (w.despawnRecursive e).WF :=
  hw.despawnGo _ e

/-- The frame order between two store snapshots: every entity id already
allocated in the first is bound to the same data (or equally absent) in the
second. -/
def FrameLe (w w' : World) : Prop :=
  ∀ x, x < w.nextId → w'.lookup x = w.lookup x

theorem FrameLe.rfl (w : World) : FrameLe w w := fun _ _ => Eq.refl _

theorem FrameLe.trans {w w1 w2 : World} (h1 : FrameLe w w1) (h2 : FrameLe w1 w2)
    (hn : w.nextId ≤ w1.nextId) : FrameLe w w2 := by
  intro x hx
  rw [h2 x (lt_of_lt_of_le hx hn), h1 x hx]

theorem FrameLe.spawnF {w : World} (hw : w.WF) : FrameLe w w.spawnEmpty.1 := by
  intro x hx
  rw [lookup_spawn hw]
  exact if_neg (Nat.ne_of_lt hx)

theorem FrameLe.updateDataF {w : World} {e : Entity} (he : w.nextId ≤ e)
    (g : EntityData → EntityData) : FrameLe w (w.updateData e g) := by
  intro x hx
  rw [lookup_updateData]
  exact if_neg (Nat.ne_of_lt (lt_of_lt_of_le hx he))

end World

/-! ### Fresh builds: building against a default receipt allocates a fresh,
fully matching subtree and leaves every pre-existing entity untouched. -/

mutual

theorem buildFresh : ∀ (f : Fragment) (w : World), w.WF → f.wf = true →
    ∀ w' r', f.build w Receipt.empty = (w', r') →
      w'.WF ∧ w.nextId < w'.nextId ∧ World.FrameLe w w' ∧
      r'.target = some w.nextId ∧
      (∀ x : Nat, x ∈ r'.targets → w.nextId ≤ x ∧ x < w'.nextId) ∧
      r'.targets.Nodup ∧
      Matches w' f r'
  | .mk nm b cs, w, hw, hwf, w', r', hb => by
    obtain ⟨hand, hwfl⟩ := Fragment.wf_parts hwf
    have h1 : resolveTarget w Receipt.empty = (w.spawnEmpty.1, w.nextId) := by
      rw [resolveTarget_empty]
      rfl
    rcases hbc : buildChildren cs 0 (w.spawnEmpty.1.insertBundle w.nextId b) []
      with ⟨w4, rem, es, recs⟩
    have hWFws : w.spawnEmpty.1.WF := hw.spawn
    have hWF2 : (w.spawnEmpty.1.insertBundle w.nextId b).WF := hWFws.updateData _ _
    have hn2 : (w.spawnEmpty.1.insertBundle w.nextId b).nextId = w.nextId + 1 := rfl
    obtain ⟨hWF4, hle4, hF4, hrem, hkeys, hes, hrange, hndp, hMP⟩ :=
      buildChildrenFresh cs 0 (w.spawnEmpty.1.insertBundle w.nextId b) hWF2 hwfl hand
        w4 rem es recs hbc
    have hpieces := Fragment.build_pieces nm h1 rfl hbc
    rw [hpieces] at hb
    subst hrem
    simp only [List.foldl_nil] at hb
    injection hb with hbw hbr
    subst hbw
    subst hbr
    have hFw2 : World.FrameLe w (w.spawnEmpty.1.insertBundle w.nextId b) := by
      intro x hx
      rw [World.lookup_insertBundle, if_neg (Nat.ne_of_lt hx)]
      exact World.FrameLe.spawnF hw x hx
    have hFw4 : World.FrameLe w w4 := hFw2.trans hF4 (by omega)
    have hn4 : w.nextId + 1 ≤ w4.nextId := by
      rw [← hn2]; exact hle4
    have hWF' : (w4.replaceChildren w.nextId es).WF := hWF4.updateData _ _
    have hlt' : w.nextId < (w4.replaceChildren w.nextId es).nextId := by
      rw [World.nextId_replaceChildren]; omega
    have hF' : World.FrameLe w (w4.replaceChildren w.nextId es) := by
      intro x hx
      rw [World.lookup_replaceChildren, if_neg (Nat.ne_of_lt hx)]
      exact hFw4 x hx
    have hl4 : w4.lookup w.nextId = some ⟨applyBundle [] b, []⟩ := by
      have hl2 : (w.spawnEmpty.1.insertBundle w.nextId b).lookup w.nextId
          = some ⟨applyBundle [] b, []⟩ := by
        rw [World.lookup_insertBundle, if_pos rfl, World.lookup_spawn hw, if_pos rfl]
        rfl
      rw [← hl2]
      exact hF4 w.nextId (by omega)
    have hl' : (w4.replaceChildren w.nextId es).lookup w.nextId
        = some ⟨applyBundle [] b, es⟩ := by
      rw [World.lookup_replaceChildren, if_pos rfl, hl4]
      rfl
    have hrange' : ∀ x : Nat, x ∈ targetsPairs recs → w.nextId + 1 ≤ x ∧ x < w4.nextId := by
      intro x hx
      have h9 := hrange x hx
      exact ⟨by omega, h9.2⟩
    have hnotin : w.nextId ∉ targetsPairs recs := by
      intro hmem
      have h9 := hrange' _ hmem
      have := h9.1
      omega
    have hlt4 : w.nextId < w4.nextId := by omega
    refine ⟨hWF', hlt', hF', rfl, ?_, ?_, ?_⟩
    · intro x hx
      rw [Receipt.targets_mk] at hx
      simp only [Option.toList_some, List.cons_append, List.nil_append,
        List.mem_cons] at hx
      rw [World.nextId_replaceChildren]
      rcases hx with hx | hx
      · subst hx
        exact ⟨le_refl _, hlt4⟩
      · have h9 := hrange' x hx
        exact ⟨Nat.le_of_succ_le h9.1, h9.2⟩
    · rw [Receipt.targets_mk]
      simp only [Option.toList_some, List.cons_append, List.nil_append]
      exact List.nodup_cons.mpr ⟨hnotin, hndp⟩
    · have hMP' : MatchesPairs (w4.replaceChildren w.nextId es) cs recs := by
        apply MatchesPairs.agreeMP cs w4 _ recs hMP
        intro x hx
        have h9 := hrange' x hx
        have h10 := h9.1
        rw [World.lookup_replaceChildren, if_neg (Nat.ne_of_gt (Nat.lt_of_succ_le h10))]
      exact Matches.mk _ nm b cs w.nextId ⟨applyBundle [] b, es⟩ recs hl'
        (applyBundle_applyBundle [] b) hes hkeys hMP'

theorem buildChildrenFresh : ∀ (cs : List Fragment) (i : Nat) (w : World), w.WF →
    wfL cs = true → anchorsNodup (resolveAnchors cs i) = true →
    ∀ w' rem es ch, buildChildren cs i w [] = (w', rem, es, ch) →
      w'.WF ∧ w.nextId ≤ w'.nextId ∧ World.FrameLe w w' ∧ rem = [] ∧
      ch.map Prod.fst = resolveAnchors cs i ∧
      es = ch.map (fun p => p.2.target.getD 0) ∧
      (∀ x : Nat, x ∈ targetsPairs ch → w.nextId ≤ x ∧ x < w'.nextId) ∧
      (targetsPairs ch).Nodup ∧
      MatchesPairs w' cs ch
  | [], i, w, hw, _, _, w', rem, es, ch, hb => by
    rw [buildChildren_nil] at hb
    injection hb with h1 hrest
    injection hrest with h2 hrest2
    injection hrest2 with h3 h4
    subst h1
    subst h2
    subst h3
    subst h4
    refine ⟨hw, le_refl _, World.FrameLe.rfl w, rfl, rfl, rfl, ?_, ?_, MatchesPairs.nil w⟩
    · intro x hx
      simp [targetsPairs] at hx
    · simp [targetsPairs]
  | c :: cs, i, w, hw, hwf, hnd, w', rem, es, ch, hb => by
    have hwfc : c.wf = true := by
      simp only [wfL, Bool.and_eq_true] at hwf; exact hwf.1
    have hwfcs : wfL cs = true := by
      simp only [wfL, Bool.and_eq_true] at hwf; exact hwf.2
    rcases ha : anchorOf c.name i with ⟨a, i'⟩
    have hres : resolveAnchors (c :: cs) i = a :: resolveAnchors cs i' := by
      rw [resolveAnchors_cons, ha]
    rw [hres] at hnd
    have hnd' := anchorsNodup_cons.mp hnd
    rcases hb1 : Fragment.build c w Receipt.empty with ⟨w1, cr⟩
    obtain ⟨hWF1, hlt1, hF1, htgt1, hrange1, hnd1, hM1⟩ :=
      buildFresh c w hw hwfc w1 cr hb1
    rcases hb2 : buildChildren cs i' w1 [] with ⟨w2, rem2, es2, ch2⟩
    obtain ⟨hWF2, hle2, hF2, hrem2, hkeys2, hes2, hrange2, hndp2, hMP2⟩ :=
      buildChildrenFresh cs i' w1 hWF1 hwfcs hnd'.2 w2 rem2 es2 ch2 hb2
    have hrm : removeA ([] : List (Anchor × Receipt)) a = (none, []) := rfl
    have hstep := buildChildren_cons_pieces ha hrm hb1 hb2
    have hanotin : a ∉ ch2.map Prod.fst := by
      rw [hkeys2]; exact hnd'.1
    rw [hstep, if_neg hanotin] at hb
    injection hb with h1 hrest
    injection hrest with h2 hrest2
    injection hrest2 with h3 h4
    subst h1
    subst h2
    subst h3
    subst h4
    have htr : ∀ x : Nat, x ∈ targetsPairs ((a, cr) :: ch2) → w.nextId ≤ x ∧ x < w2.nextId := by
      intro x hx
      rw [targetsPairs_cons] at hx
      rcases List.mem_append.mp hx with hx | hx
      · obtain ⟨h5, h6⟩ := hrange1 x hx
        exact ⟨h5, lt_of_lt_of_le h6 hle2⟩
      · obtain ⟨h5, h6⟩ := hrange2 x hx
        exact ⟨le_trans (le_of_lt hlt1) h5, h6⟩
    refine ⟨hWF2, le_trans (le_of_lt hlt1) hle2, hF1.trans hF2 (le_of_lt hlt1), hrem2,
      ?_, ?_, htr, ?_, ?_⟩
    · rw [hres]
      simp [hkeys2]
    · simp [hes2]
    · rw [targetsPairs_cons]
      rw [List.nodup_append]
      refine ⟨hnd1, hndp2, ?_⟩
      intro x hx1 hx2
      obtain ⟨h5, h6⟩ := hrange1 x hx1
      obtain ⟨h7, h8⟩ := hrange2 x hx2
      omega
    · refine MatchesPairs.cons w2 c (a, cr) cs ch2 ?_ hMP2
      apply Matches.agreeM c w1 w2 cr hM1
      intro x hx
      obtain ⟨h5, h6⟩ := hrange1 x hx
      exact hF2 x h6

end

/-! ### Rebuilding a matching receipt is the identity -/

theorem alookup_of_mem_nodup {α β : Type} [DecidableEq α] {l : List (α × β)}
    (hnd : (l.map Prod.fst).Nodup) {p : α × β} (hp : p ∈ l) :
    alookup l p.1 = some p.2 := by
  induction l with
  | nil => simp at hp
  | cons q t ih =>
    simp only [List.map_cons, List.nodup_cons] at hnd
    rcases List.mem_cons.mp hp with hp | hp
    · subst hp
      simp [alookup]
    · have hne : ¬ q.1 = p.1 := by
        intro h
        exact hnd.1 (h ▸ List.mem_map_of_mem Prod.fst hp)
      simp only [alookup, hne, if_false]
      exact ih hnd.2 hp

theorem World.updateData_eq_self {w : World} (hw : w.WF) {e : Entity} {d : EntityData}
    (hl : w.lookup e = some d) {g : EntityData → EntityData} (hg : g d = d) :
    w.updateData e g = w := by
  rcases w with ⟨n, ents⟩
  simp only [World.updateData]
  congr 1
  have : ∀ p ∈ ents, (fun p => if p.1 = e then (p.1, g p.2) else p) p = p := by
    intro p hp
    show (if p.1 = e then (p.1, g p.2) else p) = p
    by_cases hpe : p.1 = e
    · have h1 : alookup ents p.1 = some p.2 := alookup_of_mem_nodup hw.2 hp
      rw [hpe] at h1
      rw [World.lookup] at hl
      simp only at hl
      rw [hl] at h1
      injection h1 with h1
      rw [if_pos hpe, ← h1, hg, h1]
    · rw [if_neg hpe]
  rw [List.map_congr_left this]
  exact List.map_id _

theorem filter_not_mem_self (l : List ComponentId) :
    l.filter (fun c => decide (c ∉ l)) = [] := by
  rw [List.filter_eq_nil]
  intro a ha
  simp [ha]

mutual

theorem buildStable : ∀ (f : Fragment) (w : World) (r : Receipt), w.WF → f.wf = true →
    Matches w f r → f.build w r = (w, r)
  | .mk nm b cs, w, r, hw, hwf, hm => by
    cases hm with
    | mk nm2 b2 cs2 e d ch hl hstab hch hkeys hmp =>
      obtain ⟨hand, hwfl⟩ := Fragment.wf_parts hwf
      have halive : w.isAlive e = true := by simp [World.isAlive, hl]
      have h1 : resolveTarget w (Receipt.mk (some e) (bundleIds b) ch) = (w, e) :=
        resolveTarget_live rfl halive
      have hins : w.insertBundle e b = w := by
        apply World.updateData_eq_self hw hl
        show ({ comps := applyBundle d.comps b, children := d.children } : EntityData) = d
        rw [hstab]
      have h2 : ((Receipt.mk (some e) (bundleIds b) ch).components.filter
          (fun c => decide (c ∉ bundleIds b))).foldl
          (fun w' c => w'.removeById e c) (w.insertBundle e b) = w := by
        show ((bundleIds b).filter (fun c => decide (c ∉ bundleIds b))).foldl _ _ = w
        rw [filter_not_mem_self]
        exact hins
      have h3 : buildChildren cs 0 w ch = (w, [], ch.map (fun p => p.2.target.getD 0), ch) :=
        buildChildrenStable cs 0 w ch hw hwfl (anchorsNodup_nodup hand) hkeys hmp
      have hpieces := Fragment.build_pieces nm h1 h2 h3
      rw [hpieces]
      have hrepl : w.replaceChildren e (ch.map (fun p => p.2.target.getD 0)) = w := by
        apply World.updateData_eq_self hw hl
        show ({ comps := d.comps, children := ch.map (fun p => p.2.target.getD 0) }
          : EntityData) = d
        rw [← hch]
      rw [List.foldl_nil, hrepl]

theorem buildChildrenStable : ∀ (cs : List Fragment) (i : Nat) (w : World)
    (ch : List (Anchor × Receipt)), w.WF → wfL cs = true →
    (resolveAnchors cs i).Nodup → ch.map Prod.fst = resolveAnchors cs i →
    MatchesPairs w cs ch →
    buildChildren cs i w ch = (w, [], ch.map (fun p => p.2.target.getD 0), ch)
  | [], i, w, ch, hw, _, _, hkeys, hmp => by
    cases hmp with
    | nil => simp [buildChildren_nil]
  | c :: cs, i, w, ch, hw, hwf, hnd, hkeys, hmp => by
    cases hmp with
    | cons c2 p cs2 t hm hmp' =>
      have hwfc : c.wf = true := by
        simp only [wfL, Bool.and_eq_true] at hwf; exact hwf.1
      have hwfcs : wfL cs = true := by
        simp only [wfL, Bool.and_eq_true] at hwf; exact hwf.2
      rcases ha : anchorOf c.name i with ⟨a, i'⟩
      have hres : resolveAnchors (c :: cs) i = a :: resolveAnchors cs i' := by
        rw [resolveAnchors_cons, ha]
      rw [hres] at hkeys hnd
      simp only [List.map_cons, List.cons.injEq] at hkeys
      obtain ⟨hp1, hkeys'⟩ := hkeys
      have hnd' := List.nodup_cons.mp hnd
      have hrm : removeA (p :: t) a = (some p.2, t) := by
        simp [removeA, hp1]
      have hb1 : Fragment.build c w ((some p.2).getD Receipt.empty) = (w, p.2) := by
        simp only [Option.getD_some]
        exact buildStable c w p.2 hw hwfc hm
      have hb2 := buildChildrenStable cs i' w t hw hwfcs hnd'.2 hkeys' hmp'
      have hstep := buildChildren_cons_pieces ha hrm hb1 hb2
      have hanotin : a ∉ t.map Prod.fst := by
        rw [hkeys']; exact hnd'.1
      rw [hstep, if_neg hanotin]
      have hpa : (a, p.2) = p := by
        rw [← hp1]
      rw [hpa, List.map_cons]

end

/-! ### The root registry: first build and replay -/

theorem buildRootGo_nil (i : Nat) (w : World) (root : RootReceipts) :
    buildRootGo [] i w root = (w, root) := by
  simp [buildRootGo]

theorem buildRootGo_cons_pieces {p : Fragment} (ps : List Fragment) {i : Nat}
    {w : World} {root : RootReceipts} {a : Anchor} {i' : Nat} {w1 : World} {r1 : Receipt}
    (h1 : anchorOf p.name i = (a, i'))
    (h2 : Fragment.build p w ((alookup root a).getD Receipt.empty) = (w1, r1)) :
    buildRootGo (p :: ps) i w root = buildRootGo ps i' w1 (insertA root a r1) := by
  simp only [buildRootGo, h1, h2]

theorem buildRootFresh : ∀ (ps : List Fragment) (i : Nat) (w : World) (root : RootReceipts),
    w.WF → wfL ps = true → anchorsNodup (resolveAnchors ps i) = true →
    (∀ a ∈ resolveAnchors ps i, a ∉ root.map Prod.fst) →
    ∀ w' root', buildRootGo ps i w root = (w', root') →
      ∃ ch : List (Anchor × Receipt),
        root' = root ++ ch ∧
        ch.map Prod.fst = resolveAnchors ps i ∧
        MatchesPairs w' ps ch ∧
        (∀ x : Nat, x ∈ targetsPairs ch → w.nextId ≤ x ∧ x < w'.nextId) ∧
        (targetsPairs ch).Nodup ∧
        w'.WF ∧ w.nextId ≤ w'.nextId ∧ World.FrameLe w w' := by
  intro ps
  induction ps with
  | nil =>
    intro i w root hw _ _ _ w' root' hb
    rw [buildRootGo_nil] at hb
    injection hb with h1 h2
    subst h1
    subst h2
    refine ⟨[], by simp, rfl, MatchesPairs.nil w, ?_, by simp [targetsPairs],
      hw, le_refl _, World.FrameLe.rfl w⟩
    intro x hx
    simp [targetsPairs] at hx
  | cons p ps ih =>
    intro i w root hw hwf hnd hdisj w' root' hb
    have hwfp : p.wf = true := by
      simp only [wfL, Bool.and_eq_true] at hwf; exact hwf.1
    have hwfps : wfL ps = true := by
      simp only [wfL, Bool.and_eq_true] at hwf; exact hwf.2
    rcases ha : anchorOf p.name i with ⟨a, i'⟩
    have hres : resolveAnchors (p :: ps) i = a :: resolveAnchors ps i' := by
      rw [resolveAnchors_cons, ha]
    rw [hres] at hnd hdisj
    have hnd' := anchorsNodup_cons.mp hnd
    have hanr : a ∉ root.map Prod.fst := hdisj a (List.mem_cons_self _ _)
    have hlook : alookup root a = none := alookup_eq_none.mpr hanr
    rcases hb1 : Fragment.build p w Receipt.empty with ⟨w1, r1⟩
    obtain ⟨hWF1, hlt1, hF1, htgt1, hrange1, hnd1, hM1⟩ :=
      buildFresh p w hw hwfp w1 r1 hb1
    have hb1' : Fragment.build p w ((alookup root a).getD Receipt.empty) = (w1, r1) := by
      rw [hlook]
      exact hb1
    have hins : insertA root a r1 = root ++ [(a, r1)] := insertA_not_mem r1 hanr
    have hstep := buildRootGo_cons_pieces ps ha hb1'
    rw [hstep, hins] at hb
    have hdisj' : ∀ b ∈ resolveAnchors ps i', b ∉ (root ++ [(a, r1)]).map Prod.fst := by
      intro b hbmem
      rw [List.map_append, List.mem_append]
      rintro (hmem | hmem)
      · exact hdisj b (List.mem_cons_of_mem _ hbmem) hmem
      · simp only [List.map_cons, List.map_nil, List.mem_singleton] at hmem
        subst hmem
        exact hnd'.1 hbmem
    obtain ⟨ch', hroot', hkeys', hMP', hrange', hndp', hWF', hle', hF'⟩ :=
      ih i' w1 (root ++ [(a, r1)]) hWF1 hwfps hnd'.2 hdisj' w' root' hb
    refine ⟨(a, r1) :: ch', ?_, ?_, ?_, ?_, ?_, hWF', le_trans (le_of_lt hlt1) hle',
      hF1.trans hF' (le_of_lt hlt1)⟩
    · rw [hroot', List.append_assoc]
      rfl
    · rw [List.map_cons, hkeys', hres]
    · refine MatchesPairs.cons w' p (a, r1) ps ch' ?_ hMP'
      apply Matches.agreeM p w1 w' r1 hM1
      intro x hx
      obtain ⟨h5, h6⟩ := hrange1 x hx
      exact hF' x h6
    · intro x hx
      rw [targetsPairs_cons] at hx
      rcases List.mem_append.mp hx with hx | hx
      · obtain ⟨h5, h6⟩ := hrange1 x hx
        exact ⟨h5, lt_of_lt_of_le h6 hle'⟩
      · obtain ⟨h5, h6⟩ := hrange' x hx
        exact ⟨le_trans (le_of_lt hlt1) h5, h6⟩
    · rw [targetsPairs_cons, List.nodup_append]
      refine ⟨hnd1, hndp', ?_⟩
      intro x hx1 hx2
      obtain ⟨h5, h6⟩ := hrange1 x hx1
      obtain ⟨h7, h8⟩ := hrange' x hx2
      omega

theorem buildRootStable : ∀ (ps : List Fragment) (i : Nat) (w : World)
    (pre ch : List (Anchor × Receipt)),
    w.WF → wfL ps = true → (resolveAnchors ps i).Nodup →
    ch.map Prod.fst = resolveAnchors ps i →
    (∀ a ∈ resolveAnchors ps i, a ∉ pre.map Prod.fst) →
    MatchesPairs w ps ch →
    buildRootGo ps i w (pre ++ ch) = (w, pre ++ ch) := by
  intro ps
  induction ps with
  | nil =>
    intro i w pre ch hw _ _ hkeys _ hmp
    cases hmp with
    | nil => rw [buildRootGo_nil]
  | cons p ps ih =>
    intro i w pre ch hw hwf hnd hkeys hdisj hmp
    cases hmp with
    | cons c2 q cs2 t hm hmp' =>
      have hwfp : p.wf = true := by
        simp only [wfL, Bool.and_eq_true] at hwf; exact hwf.1
      have hwfps : wfL ps = true := by
        simp only [wfL, Bool.and_eq_true] at hwf; exact hwf.2
      rcases ha : anchorOf p.name i with ⟨a, i'⟩
      have hres : resolveAnchors (p :: ps) i = a :: resolveAnchors ps i' := by
        rw [resolveAnchors_cons, ha]
      rw [hres] at hnd hkeys hdisj
      simp only [List.map_cons, List.cons.injEq] at hkeys
      obtain ⟨hq1, hkeys'⟩ := hkeys
      have hnd' := List.nodup_cons.mp hnd
      have hpre : a ∉ pre.map Prod.fst := hdisj a (List.mem_cons_self _ _)
      have hlook : alookup (pre ++ q :: t) a = some q.2 := by
        rw [alookup_append, alookup_eq_none.mpr hpre]
        simp only [Option.none_or]
        simp [alookup, hq1]
      have hb1 : Fragment.build p w ((alookup (pre ++ q :: t) a).getD Receipt.empty)
          = (w, q.2) := by
        rw [hlook]
        simp only [Option.getD_some]
        exact buildStable p w q.2 hw hwfp hm
      have hstep := buildRootGo_cons_pieces ps ha hb1
      rw [hstep]
      have hmemq : a ∈ (pre ++ q :: t).map Prod.fst := by
        rw [List.map_append, List.mem_append]
        right
        rw [List.map_cons, hq1]
        exact List.mem_cons_self _ _
      have hins : insertA (pre ++ q :: t) a q.2 = pre ++ q :: t := by
        apply insertA_self hmemq
        intro x hx hxa
        rcases List.mem_append.mp hx with hx | hx
        · exact absurd (hxa ▸ List.mem_map_of_mem Prod.fst hx) hpre
        · rcases List.mem_cons.mp hx with hx | hx
          · rw [hx]
          · have : x.1 ∈ t.map Prod.fst := List.mem_map_of_mem Prod.fst hx
            rw [hkeys'] at this
            rw [hxa] at this
            exact absurd this hnd'.1
      rw [hins]
      have hpre' : ∀ b ∈ resolveAnchors ps i', b ∉ (pre ++ [q]).map Prod.fst := by
        intro b hb
        rw [List.map_append, List.mem_append]
        rintro (hmem | hmem)
        · exact hdisj b (List.mem_cons_of_mem _ hb) hmem
        · simp only [List.map_cons, List.map_nil, List.mem_singleton] at hmem
          rw [hq1] at hmem
          subst hmem
          exact hnd'.1 hb
      have hsplit : pre ++ q :: t = (pre ++ [q]) ++ t := by
        rw [List.append_assoc]
        rfl
      rw [hsplit]
      exact ih i' w (pre ++ [q]) t hw hwfps hnd'.2 hkeys' hpre' hmp'

instance (w : World) : Decidable w.WF :=
  inferInstanceAs (Decidable ((∀ p ∈ w.ents, p.1 < w.nextId) ∧ (w.ents.map Prod.fst).Nodup))

/-- C1: building an unchanged template twice in succession (from the initial,
empty root registry, under the spec's caller contract of unique anchors)
yields no further mutation on the second call: the second build returns the
same entity store and the same registry, so every node is bound to the same
entity handle, every entity keeps its component set, and every child order is
unchanged. -/
theorem template_rebuild_idempotent (t : Template) (w : World) (hw : w.WF)
    (hwf : t.wfT = true) :
    buildTemplate t (buildTemplate t w none).1 (some (buildTemplate t w none).2) =
      buildTemplate t w none := by
  have hand : anchorsNodup (resolveAnchors t 0) = true := by
    simp only [Template.wfT, Bool.and_eq_true] at hwf; exact hwf.1
  have hwfl : wfL t = true := by
    simp only [Template.wfT, Bool.and_eq_true] at hwf; exact hwf.2
  rcases hp1 : buildRootGo t 0 w [] with ⟨w1, root1⟩
  have hbt1 : buildTemplate t w none = (w1, root1) := by
    simp only [buildTemplate, Option.getD_none]
    exact hp1
  obtain ⟨ch, hroot, hkeys, hMP, hrange, hndp, hWF1, hle1, hF1⟩ :=
    buildRootFresh t 0 w [] hw hwfl hand (by intro a _ h; simp at h) w1 root1 hp1
  rw [List.nil_append] at hroot
  subst hroot
  have hstable := buildRootStable t 0 w1 [] root1 hWF1 hwfl (anchorsNodup_nodup hand) hkeys
    (by intro a _ h; simp at h) hMP
  rw [List.nil_append] at hstable
  rw [hbt1]
  show buildTemplate t w1 (some root1) = (w1, root1)
  simp only [buildTemplate, Option.getD_some]
  exact hstable

/-- Witness for C1 at a concrete template (a named root with two children,
one nested grandchild) and the empty store. -/
theorem template_rebuild_idempotent_witness :
    (World.WF ⟨0, []⟩ ∧ Template.wfT
      [Fragment.mk (some "r") [(1, 10)]
        [Fragment.mk none [(2, 20)] [Fragment.mk none [(4, 40)] []],
         Fragment.mk (some "c") [(3, 30)] []]] = true) ∧
    buildTemplate
      [Fragment.mk (some "r") [(1, 10)]
        [Fragment.mk none [(2, 20)] [Fragment.mk none [(4, 40)] []],
         Fragment.mk (some "c") [(3, 30)] []]]
      (buildTemplate
        [Fragment.mk (some "r") [(1, 10)]
          [Fragment.mk none [(2, 20)] [Fragment.mk none [(4, 40)] []],
           Fragment.mk (some "c") [(3, 30)] []]] ⟨0, []⟩ none).1
      (some (buildTemplate
        [Fragment.mk (some "r") [(1, 10)]
          [Fragment.mk none [(2, 20)] [Fragment.mk none [(4, 40)] []],
           Fragment.mk (some "c") [(3, 30)] []]] ⟨0, []⟩ none).2) =
    buildTemplate
      [Fragment.mk (some "r") [(1, 10)]
        [Fragment.mk none [(2, 20)] [Fragment.mk none [(4, 40)] []],
         Fragment.mk (some "c") [(3, 30)] []]] ⟨0, []⟩ none :=
  ⟨⟨by decide, by decide⟩,
    template_rebuild_idempotent _ _ (by decide) (by decide)⟩

/-! ### Anchor resolution, target resolution, and receipt-target totality -/

theorem resolveAnchors_get (cs : List Fragment) : ∀ (i k : Nat),
    (resolveAnchors cs i)[k]? = (cs[k]?).map (fun c =>
      match c.name with
      | some n => Anchor.named n
      | none => Anchor.auto (i + (cs.take k).countP (fun c' => c'.name.isNone))) := by
  induction cs with
  | nil => intro i k; simp [resolveAnchors]
  | cons c cs ih =>
    intro i k
    cases k with
    | zero =>
      cases hn : c.name with
      | some n => simp [resolveAnchors_cons, anchorOf, hn]
      | none => simp [resolveAnchors_cons, anchorOf, hn]
    | succ k =>
      cases hn : c.name with
      | some n =>
        rw [resolveAnchors_cons]
        simp only [hn, anchorOf, List.getElem?_cons_succ]
        rw [ih i k]
        have hc : (c :: cs).take (k + 1) = c :: cs.take k := rfl
        rw [hc, List.countP_cons]
        simp [hn]
      | none =>
        rw [resolveAnchors_cons]
        simp only [hn, anchorOf, List.getElem?_cons_succ]
        rw [ih (i + 1) k]
        have hc : (c :: cs).take (k + 1) = c :: cs.take k := rfl
        rw [hc, List.countP_cons]
        simp only [hn, Option.isNone_none, if_true]
        cases cs[k]? with
        | none => simp
        | some c' =>
          simp only [Option.map]
          cases c'.name with
          | some n' => simp
          | none =>
            simp only [Option.some.injEq, Anchor.auto.injEq]
            omega

/-- C5: the anchor a sibling receives is a pure function of its own name and
of the number of unnamed siblings to its left — `Named(name)` when it has a
name, `Auto(counter)` with the counter equal to the count of earlier unnamed
siblings otherwise, exactly as the left-to-right scan computes it. -/
theorem anchor_scan_positional (cs : List Fragment) (k : Nat) :
    (resolveAnchors cs 0)[k]? = (cs[k]?).map (fun c =>
      match c.name with
      | some n => Anchor.named n
      | none => Anchor.auto ((cs.take k).countP (fun c' => c'.name.isNone))) := by
  rw [resolveAnchors_get cs 0 k]
  cases cs[k]? with
  | none => simp
  | some c =>
    simp only [Option.map]
    cases c.name with
    | some n => simp
    | none => simp

/-- C6: target resolution. If the recorded target still resolves to a live
entity it is reused as the build target; a stale recorded target (entity
destroyed outside the algorithm) makes the build behave exactly as if no
target had been recorded — a fresh entity is allocated silently and the
builder (a total function) signals nothing to the caller. -/
theorem target_resolution (f : Fragment) (w : World) (r : Receipt) :
    (∀ e, r.target = some e → w.isAlive e = true → (f.build w r).2.target = some e) ∧
    (∀ e, r.target = some e → w.isAlive e = false →
      f.build w r = f.build w (.mk none r.components r.children)) ∧
    (r.target = none → (f.build w r).2.target = some w.nextId) := by
  rcases f with ⟨nm, b, cs⟩
  rcases r with ⟨tg, comp, ch⟩
  refine ⟨?_, ?_, ?_⟩
  · intro e he ha
    simp only [Receipt.target] at he
    subst he
    have h1 : resolveTarget w (Receipt.mk (some e) comp ch) = (w, e) :=
      resolveTarget_live (e := e) rfl ha
    simp only [Fragment.build, h1, Receipt.target]
  · intro e he ha
    simp only [Receipt.target] at he
    subst he
    have h1 : resolveTarget w (Receipt.mk (some e) comp ch) = w.spawnEmpty :=
      resolveTarget_stale (e := e) rfl ha
    have h2 : resolveTarget w (.mk none (Receipt.mk (some e) comp ch).components
        (Receipt.mk (some e) comp ch).children) = w.spawnEmpty :=
      resolveTarget_none rfl
    simp only [Fragment.build, h1, h2, Receipt.components, Receipt.children]
    rfl
  · intro he
    simp only [Receipt.target] at he
    subst he
    have h1 : resolveTarget w (Receipt.mk none comp ch) = w.spawnEmpty :=
      resolveTarget_none rfl
    simp only [Fragment.build, h1, Receipt.target]
    rfl

/-- Witness for C6: reuse of a live target, stale-target equivalence with an
absent target, and fresh allocation, all at concrete stores. -/
theorem target_resolution_witness :
    ((Fragment.mk none [] []).build ⟨1, [(0, ⟨[], []⟩)]⟩
        (.mk (some 0) [] [])).2.target = some 0 ∧
    (Fragment.mk none [] []).build ⟨1, [(0, ⟨[], []⟩)]⟩ (.mk (some 5) [7] []) =
      (Fragment.mk none [] []).build ⟨1, [(0, ⟨[], []⟩)]⟩
        (.mk none (Receipt.mk (some 5) [7] []).components
          (Receipt.mk (some 5) [7] []).children) ∧
    ((Fragment.mk none [] []).build ⟨1, [(0, ⟨[], []⟩)]⟩
        (.mk none [] [])).2.target = some 1 :=
  ⟨(target_resolution _ _ _).1 0 rfl (by decide),
   (target_resolution _ _ _).2.1 5 rfl (by decide),
   (target_resolution _ _ _).2.2 rfl⟩

/-- C9: every build returns a receipt whose `target` field is `Some`: it is
assigned before the bundle insert and before any child is built, so the
unwrap of each child receipt's target while collecting child handles can
never fail. -/
theorem build_target_isSome (f : Fragment) (w : World) (r : Receipt) :
    (f.build w r).2.target.isSome = true := by
  rcases f with ⟨nm, b, cs⟩
  simp [Fragment.build, Receipt.target]

/-! ### Recursive despawn of a realized subtree: it destroys exactly the
recorded entities and touches nothing else. -/

theorem length_despawnOne_lt {w : World} {e : Entity} {d : EntityData}
    (h : w.lookup e = some d) : (w.despawnOne e).ents.length < w.ents.length := by
  have hmem : (e, d) ∈ w.ents := alookup_some_mem h
  simp only [World.despawnOne]
  rw [List.length_filter_lt_length_iff_exists]
  exact ⟨(e, d), hmem, by simp⟩

theorem foldl_despawnGo_sublist (fuel : Nat) (l : List Entity) (w : World) :
    (l.foldl (World.despawnGo fuel) w).ents.Sublist w.ents :=
  World.foldl_inv (World.despawnGo fuel) (fun w' => w'.ents.Sublist w.ents)
    (fun w' a hw' => List.Sublist.trans (World.despawnGo_ents_sublist fuel w' a) hw')
    l w (List.Sublist.refl _)

theorem Realized.target_some {w : World} {r : Receipt} (h : Realized w r) :
    ∃ e, r.target = some e := by
  cases h with
  | mk e comp ch d _ _ _ _ => exact ⟨e, rfl⟩

mutual

theorem despawnKill : ∀ (r : Receipt) (w : World) (e : Entity) (fuel : Nat),
    Realized w r → r.target = some e → r.targets.Nodup → w.ents.length ≤ fuel →
    (∀ x ∈ r.targets, (World.despawnGo fuel w e).lookup x = none) ∧
    (∀ x : Nat, x ∉ r.targets → (World.despawnGo fuel w e).lookup x = w.lookup x)
  | r, w, e, fuel, hr, ht, hnd, hfuel => by
    cases hr with
    | mk e0 comp ch d hl hch hknd hrp =>
      simp only [Receipt.target] at ht
      injection ht with ht
      subst ht
      rw [Receipt.targets_mk] at hnd ⊢
      simp only [Option.toList_some, List.cons_append, List.nil_append] at hnd ⊢
      have hnd' := List.nodup_cons.mp hnd
      have hlen1 : 1 ≤ w.ents.length := by
        have := alookup_some_mem hl
        exact List.length_pos.mpr (List.ne_nil_of_mem this)
      cases fuel with
      | zero => omega
      | succ n =>
        have hstep : World.despawnGo (n + 1) w e0
            = (ch.map (fun p => p.2.target.getD 0)).foldl (World.despawnGo n)
              (w.despawnOne e0) := by
          simp only [World.despawnGo, hl, hch]
        have hlen2 : (w.despawnOne e0).ents.length ≤ n := by
          have := length_despawnOne_lt hl
          omega
        have hrp1 : RealizedPairs (w.despawnOne e0) ch := by
          apply RealizedPairs.agreeRP ch w _ hrp
          intro x hx
          rw [World.lookup_despawnOne, if_neg]
          intro hxe
          exact hnd'.1 (hxe ▸ hx)
        obtain ⟨hkill, hframe⟩ :=
          despawnKillPairs ch (w.despawnOne e0) n hrp1 hnd'.2 hlen2
        constructor
        · intro x hx
          rw [hstep]
          rcases List.mem_cons.mp hx with hx | hx
          · subst hx
            rw [hframe x hnd'.1, World.lookup_despawnOne, if_pos rfl]
          · exact hkill x hx
        · intro x hx
          rw [List.mem_cons, not_or] at hx
          rw [hstep, hframe x hx.2, World.lookup_despawnOne, if_neg hx.1]

theorem despawnKillPairs : ∀ (ch : List (Anchor × Receipt)) (w : World) (fuel : Nat),
    RealizedPairs w ch → (targetsPairs ch).Nodup → w.ents.length ≤ fuel →
    (∀ x ∈ targetsPairs ch,
      ((ch.map (fun p => p.2.target.getD 0)).foldl (World.despawnGo fuel) w).lookup x
        = none) ∧
    (∀ x : Nat, x ∉ targetsPairs ch →
      ((ch.map (fun p => p.2.target.getD 0)).foldl (World.despawnGo fuel) w).lookup x
        = w.lookup x)
  | [], w, fuel, _, _, _ => by
    constructor
    · intro x hx
      simp [targetsPairs] at hx
    · intro x _
      rfl
  | p :: t, w, fuel, hrp, hnd, hfuel => by
    cases hrp with
    | cons q t2 hr hrp' =>
      rw [targetsPairs_cons] at hnd
      have hdisj := List.disjoint_of_nodup_append hnd
      have hnd1 := List.Nodup.of_append_left hnd
      have hnd2 := List.Nodup.of_append_right hnd
      obtain ⟨e1, he1⟩ := Realized.target_some hr
      have hget : p.2.target.getD 0 = e1 := by rw [he1]; rfl
      obtain ⟨hkill1, hframe1⟩ := despawnKill p.2 w e1 fuel hr he1 hnd1 hfuel
      have hlen' : (World.despawnGo fuel w e1).ents.length ≤ fuel := by
        have := (World.despawnGo_ents_sublist fuel w e1).length_le
        omega
      have hrp1 : RealizedPairs (World.despawnGo fuel w e1) t := by
        apply RealizedPairs.agreeRP t w _ hrp'
        intro x hx
        exact hframe1 x (fun hmem => hdisj hmem hx)
      obtain ⟨hkill2, hframe2⟩ :=
        despawnKillPairs t (World.despawnGo fuel w e1) fuel hrp1 hnd2 hlen'
      have hfold : ((p :: t).map (fun p => p.2.target.getD 0)).foldl
          (World.despawnGo fuel) w
          = (t.map (fun p => p.2.target.getD 0)).foldl (World.despawnGo fuel)
            (World.despawnGo fuel w e1) := by
        rw [List.map_cons, List.foldl_cons, hget]
      constructor
      · intro x hx
        rw [targetsPairs_cons] at hx
        rw [hfold]
        rcases List.mem_append.mp hx with hx | hx
        · rw [hframe2 x (fun hmem => hdisj hx hmem)]
          exact hkill1 x hx
        · exact hkill2 x hx
      · intro x hx
        rw [targetsPairs_cons, List.mem_append, not_or] at hx
        rw [hfold, hframe2 x hx.2]
        exact hframe1 x hx.1

end

/-! ### Support lemmas for the frame theorem -/

theorem targetsPairs_sublist {old' old : List (Anchor × Receipt)}
    (h : old'.Sublist old) : (targetsPairs old').Sublist (targetsPairs old) := by
  induction h with
  | slnil => exact List.Sublist.refl _
  | cons p h ih =>
    rw [targetsPairs_cons]
    exact ih.trans (List.sublist_append_right _ _)
  | cons₂ p h ih =>
    rw [targetsPairs_cons, targetsPairs_cons]
    exact ih.append_left _

theorem mem_targetsPairs_of_entry {p : Anchor × Receipt} {ch : List (Anchor × Receipt)}
    (hp : p ∈ ch) {x : Entity} (hx : x ∈ p.2.targets) : x ∈ targetsPairs ch :=
  mem_targetsPairs.mpr ⟨p, hp, hx⟩

theorem RealizedPairs.mem {w : World} {ch : List (Anchor × Receipt)}
    (h : RealizedPairs w ch) {p : Anchor × Receipt} (hp : p ∈ ch) : Realized w p.2 := by
  induction ch with
  | nil => simp at hp
  | cons q t ih =>
    cases h with
    | cons q2 t2 hr hrp =>
      rcases List.mem_cons.mp hp with hp | hp
      · subst hp; exact hr
      · exact ih hrp hp

theorem targets_filter_subset {ch : List (Anchor × Receipt)}
    (p : Anchor × Receipt → Bool) {x : Entity}
    (hx : x ∈ targetsPairs (ch.filter p)) : x ∈ targetsPairs ch :=
  (targetsPairs_sublist (List.filter_sublist ch)).subset hx

theorem targets_filter_disjoint {ch : List (Anchor × Receipt)}
    (hnd : (targetsPairs ch).Nodup) (p q : Anchor × Receipt → Bool)
    (hpq : ∀ y, p y = true → q y = true → False) :
    ∀ x, x ∈ targetsPairs (ch.filter p) → x ∈ targetsPairs (ch.filter q) → False := by
  induction ch with
  | nil => intro x hx _; simp [targetsPairs] at hx
  | cons h t ih =>
    rw [targetsPairs_cons] at hnd
    have hdisj := List.disjoint_of_nodup_append hnd
    have hndt := List.Nodup.of_append_right hnd
    intro x hx1 hx2
    rw [List.filter_cons] at hx1 hx2
    by_cases hph : p h = true
    · have hqh : ¬ q h = true := fun hq => hpq h hph hq
      rw [if_pos hph] at hx1
      rw [if_neg hqh] at hx2
      rw [targetsPairs_cons] at hx1
      rcases List.mem_append.mp hx1 with hx1 | hx1
      · exact hdisj hx1 (targets_filter_subset q hx2)
      · exact ih hndt x hx1 hx2
    · rw [if_neg hph] at hx1
      by_cases hqh : q h = true
      · rw [if_pos hqh] at hx2
        rw [targetsPairs_cons] at hx2
        rcases List.mem_append.mp hx2 with hx2 | hx2
        · exact hdisj hx2 (targets_filter_subset p hx1)
        · exact ih hndt x hx1 hx2
      · rw [if_neg hqh] at hx2
        exact ih hndt x hx1 hx2

theorem targets_lt_nextId {w : World} (hw : w.WF) {ch : List (Anchor × Receipt)}
    (h : RealizedPairs w ch) : ∀ x ∈ targetsPairs ch, x < w.nextId := by
  intro x hx
  obtain ⟨d, hd⟩ := RealizedPairs.aliveRP ch w h x hx
  exact hw.lookup_lt hd

theorem Receipt.targetsLtNextId {w : World} (hw : w.WF) {r : Receipt}
    (h : Realized w r) : ∀ x ∈ r.targets, x < w.nextId := by
  intro x hx
  obtain ⟨d, hd⟩ := Realized.aliveR r w h x hx
  exact hw.lookup_lt hd

theorem filter_ne_of_not_mem {ch : List (Anchor × Receipt)} {a : Anchor}
    (h : a ∉ ch.map Prod.fst) : ch.filter (fun p => decide (p.1 ≠ a)) = ch := by
  apply List.filter_eq_self.mpr
  intro p hp
  simp only [decide_eq_true_eq]
  intro hpa
  exact h (hpa ▸ List.mem_map_of_mem Prod.fst hp)

theorem filter_key_eq {ch : List (Anchor × Receipt)} {a : Anchor} {cr : Receipt}
    (hnd : (ch.map Prod.fst).Nodup) (hl : alookup ch a = some cr) :
    ch.filter (fun p => decide (p.1 = a)) = [(a, cr)] := by
  induction ch with
  | nil => simp [alookup] at hl
  | cons p t ih =>
    simp only [List.map_cons, List.nodup_cons] at hnd
    rw [List.filter_cons]
    by_cases hp : p.1 = a
    · simp only [alookup, hp, if_true] at hl
      injection hl with hl
      have hfilt : t.filter (fun p => decide (p.1 = a)) = [] := by
        rw [List.filter_eq_nil]
        intro q hq
        simp only [decide_eq_true_eq]
        intro hqa
        exact (hp ▸ hnd.1) (hqa ▸ List.mem_map_of_mem Prod.fst hq)
      simp only [hp, decide_true_eq_true, if_pos, hfilt]
      rw [← hp, ← hl]
    · simp only [alookup, hp, if_false] at hl
      have hd : decide (p.1 = a) = false := by simp [hp]
      rw [hd]
      simp only [Bool.false_eq_true, if_false]
      exact ih hnd.2 hl

/-! ### The orphan-cleanup fold -/

theorem orphanStep_nextId (w : World) (p : Anchor × Receipt) :
    (orphanStep w p).nextId = w.nextId := by
  rcases p with ⟨a, r⟩
  rcases r with ⟨tg, comp, ch⟩
  cases tg with
  | none => rfl
  | some t => simp [orphanStep, Receipt.target, World.despawnRecursive_nextId]

theorem orphanFold_nextId (rem : List (Anchor × Receipt)) (w : World) :
    (rem.foldl orphanStep w).nextId = w.nextId :=
  World.foldl_inv orphanStep (fun w' => w'.nextId = w.nextId)
    (fun w' a hw' => by
      show (orphanStep w' a).nextId = w.nextId
      rw [orphanStep_nextId]; exact hw') rem w rfl

theorem WF.orphanFold {w : World} (hw : w.WF) (rem : List (Anchor × Receipt)) :
    (rem.foldl orphanStep w).WF :=
  World.foldl_inv orphanStep World.WF
    (fun w' p hw' => by
      rcases p with ⟨a, r⟩
      rcases r with ⟨tg, comp, ch⟩
      cases tg with
      | none => exact hw'
      | some t => exact hw'.despawnRecursive t)
    rem w hw

theorem orphanFoldFrame : ∀ (rem : List (Anchor × Receipt)) (w : World),
    RealizedPairs w rem → (targetsPairs rem).Nodup →
    (∀ x ∈ targetsPairs rem, (rem.foldl orphanStep w).lookup x = none) ∧
    (∀ x : Nat, x ∉ targetsPairs rem → (rem.foldl orphanStep w).lookup x = w.lookup x) := by
  intro rem
  induction rem with
  | nil =>
    intro w _ _
    exact ⟨fun x hx => by simp [targetsPairs] at hx, fun x _ => rfl⟩
  | cons p t ih =>
    intro w hrp hnd
    cases hrp with
    | cons q2 t2 hr hrp' =>
      rw [targetsPairs_cons] at hnd
      have hdisj := List.disjoint_of_nodup_append hnd
      have hnd1 := List.Nodup.of_append_left hnd
      have hnd2 := List.Nodup.of_append_right hnd
      obtain ⟨e1, he1⟩ := Realized.target_some hr
      have hstep : orphanStep w p = World.despawnGo (w.ents.length + 1) w e1 := by
        rcases p with ⟨a, r⟩
        simp only [orphanStep, he1]
        rfl
      obtain ⟨hkill1, hframe1⟩ := despawnKill p.2 w e1 (w.ents.length + 1) hr he1 hnd1
        (by omega)
      have hrp1 : RealizedPairs (World.despawnGo (w.ents.length + 1) w e1) t := by
        apply RealizedPairs.agreeRP t w _ hrp'
        intro x hx
        exact hframe1 x (fun hmem => hdisj hmem hx)
      obtain ⟨hkill2, hframe2⟩ := ih (World.despawnGo (w.ents.length + 1) w e1) hrp1 hnd2
      have hfold : ((p :: t).foldl orphanStep w)
          = t.foldl orphanStep (World.despawnGo (w.ents.length + 1) w e1) := by
        rw [List.foldl_cons, hstep]
      constructor
      · intro x hx
        rw [targetsPairs_cons] at hx
        rw [hfold]
        rcases List.mem_append.mp hx with hx | hx
        · rw [hframe2 x (fun hmem => hdisj hx hmem)]
          exact hkill1 x hx
        · exact hkill2 x hx
      · intro x hx
        rw [targetsPairs_cons, List.mem_append, not_or] at hx
        rw [hfold, hframe2 x hx.2]
        exact hframe1 x hx.1

theorem targetsPairs_append (l1 l2 : List (Anchor × Receipt)) :
    targetsPairs (l1 ++ l2) = targetsPairs l1 ++ targetsPairs l2 := by
  induction l1 with
  | nil => simp [targetsPairs]
  | cons p t ih => simp [targetsPairs_cons, ih, List.append_assoc]

theorem RealizedPairs.filter {w : World} {ch : List (Anchor × Receipt)}
    (h : RealizedPairs w ch) (p : Anchor × Receipt → Bool) :
    RealizedPairs w (ch.filter p) := by
  induction ch with
  | nil => exact RealizedPairs.nil w
  | cons q t ih =>
    cases h with
    | cons q2 t2 hr hrp =>
      rw [List.filter_cons]
      by_cases hq : p q = true
      · rw [if_pos hq]
        exact RealizedPairs.cons w q _ hr (ih hrp)
      · rw [if_neg hq]
        exact ih hrp

theorem targets_entry_nodup {ch : List (Anchor × Receipt)}
    (hnd : (targetsPairs ch).Nodup) {p : Anchor × Receipt} (hp : p ∈ ch) :
    p.2.targets.Nodup := by
  obtain ⟨s, t, hst⟩ := List.append_of_mem hp
  subst hst
  rw [targetsPairs_append, targetsPairs_cons] at hnd
  exact ((List.Nodup.of_append_right hnd).of_append_left)

theorem alookup_filter_not_mem (cs : List (ComponentId × Value)) (l : List ComponentId)
    (k : ComponentId) :
    alookup (cs.filter (fun q => decide (q.1 ∉ l))) k =
      if k ∈ l then none else alookup cs k := by
  induction cs with
  | nil => by_cases hk : k ∈ l <;> simp [alookup, hk]
  | cons p t ih =>
    rw [List.filter_cons]
    by_cases hp : p.1 ∈ l
    · have hd : decide (p.1 ∉ l) = false := by simp [hp]
      rw [hd]
      simp only [Bool.false_eq_true, if_false]
      rw [ih]
      by_cases hk : k ∈ l
      · simp [hk]
      · have hpk : ¬ p.1 = k := fun h => hk (h ▸ hp)
        simp [hk, alookup, hpk]
    · have hd : decide (p.1 ∉ l) = true := by simp [hp]
      rw [hd]
      simp only [if_true]
      by_cases hpk : p.1 = k
      · subst hpk
        simp [alookup, hp]
      · simp only [alookup, hpk, if_false]
        exact ih

/-- The separation invariant on a receipt child map: realized entries, globally
distinct recorded entities, distinct anchors. -/
def SepPairs (w : World) (ch : List (Anchor × Receipt)) : Prop :=
  RealizedPairs w ch ∧ (targetsPairs ch).Nodup ∧ (ch.map Prod.fst).Nodup


/-! ### The frame theorem: building an arbitrary new fragment against a
separated receipt touches only the receipt's recorded entities and fresh ids,
destroys exactly the orphaned subtrees, and keeps every visited child's
entity. -/

mutual

theorem buildFrame : ∀ (f : Fragment) (w : World) (r : Receipt), w.WF → f.wf = true →
    SepR w r →
    ∀ w' r', f.build w r = (w', r') →
      w'.WF ∧ w.nextId ≤ w'.nextId ∧
      (∀ x : Nat, x < w.nextId → x ∉ r.targets → w'.lookup x = w.lookup x) ∧
      r'.target = r.target ∧
      (∃ e1, r'.target = some e1 ∧ (w'.lookup e1).isSome = true) ∧
      (∀ x : Nat, x ∈ r'.targets → x ∈ r.targets ∨ (w.nextId ≤ x ∧ x < w'.nextId)) ∧
      (∀ p ∈ r.children, p.1 ∉ resolveAnchors f.childList 0 →
        ∀ x ∈ p.2.targets, w'.lookup x = none) ∧
      (∀ p ∈ r.children, p.1 ∈ resolveAnchors f.childList 0 →
        ∃ cr', alookup r'.children p.1 = some cr' ∧ cr'.target = p.2.target ∧
          ∃ e1, p.2.target = some e1 ∧ (w'.lookup e1).isSome = true) ∧
      (∀ a ∈ r'.children.map Prod.fst, a ∈ resolveAnchors f.childList 0) ∧
      (∀ e : Entity, r.target = some e →
        ∃ d d', w.lookup e = some d ∧ w'.lookup e = some d' ∧
        d'.children = r'.children.map (fun p => p.2.target.getD 0) ∧
        ∀ k : ComponentId, alookup d'.comps k =
          if k ∈ bundleIds f.bundle then lastVal f.bundle k
          else if k ∈ r.components then none
          else alookup d.comps k)
  | .mk nm b cs, w, r, hw, hwf, hsep, w', r', hb => by
    obtain ⟨hre, hndT⟩ := hsep
    cases hre with
    | mk e comp ch d hl hch hknd hrp =>
      obtain ⟨hand, hwfl⟩ := Fragment.wf_parts hwf
      rw [Receipt.targets_mk] at hndT
      simp only [Option.toList_some, List.cons_append, List.nil_append] at hndT
      have hndT' := List.nodup_cons.mp hndT
      have halive : w.isAlive e = true := by simp [World.isAlive, hl]
      have he_lt : e < w.nextId := hw.lookup_lt hl
      have h1 : resolveTarget w (Receipt.mk (some e) comp ch) = (w, e) :=
        resolveTarget_live (e := e) rfl halive
      have hbase : ((Receipt.mk (some e) comp ch).components.filter
            (fun cc => decide (cc ∉ bundleIds b))).foldl
            (fun w1 cc => w1.removeById e cc) (w.insertBundle e b)
          = w.updateData e (fun dd =>
              (⟨(applyBundle dd.comps b).filter
                  (fun q => decide (q.1 ∉ comp.filter (fun cc => decide (cc ∉ bundleIds b)))),
                dd.children⟩ : EntityData)) := by
        show (comp.filter (fun cc => decide (cc ∉ bundleIds b))).foldl
            (fun w1 cc => w1.removeById e cc) (w.insertBundle e b) = _
        rw [World.foldl_removeById, World.insertBundle, World.updateData_updateData]
      have hlook3 : ∀ x : Nat, (w.updateData e (fun dd =>
          (⟨(applyBundle dd.comps b).filter
              (fun q => decide (q.1 ∉ comp.filter (fun cc => decide (cc ∉ bundleIds b)))),
            dd.children⟩ : EntityData))).lookup x =
          if x = e then some ⟨(applyBundle d.comps b).filter
              (fun q => decide (q.1 ∉ comp.filter (fun cc => decide (cc ∉ bundleIds b)))),
            d.children⟩
          else w.lookup x := by
        intro x
        rw [World.lookup_updateData]
        by_cases hx : x = e
        · subst hx
          rw [if_pos rfl, if_pos rfl, hl]
          rfl
        · rw [if_neg hx, if_neg hx]
      have hWF3 : (w.updateData e (fun dd =>
          (⟨(applyBundle dd.comps b).filter
              (fun q => decide (q.1 ∉ comp.filter (fun cc => decide (cc ∉ bundleIds b)))),
            dd.children⟩ : EntityData))).WF := hw.updateData e _
      have hsep3 : SepPairs (w.updateData e (fun dd =>
          (⟨(applyBundle dd.comps b).filter
              (fun q => decide (q.1 ∉ comp.filter (fun cc => decide (cc ∉ bundleIds b)))),
            dd.children⟩ : EntityData))) ch := by
        refine ⟨?_, hndT'.2, hknd⟩
        apply RealizedPairs.agreeRP ch w _ hrp
        intro x hx
        have hxne : ¬ x = e := by
          intro hxe
          apply hndT'.1
          rw [← hxe]
          exact hx
        rw [hlook3 x, if_neg hxne]
      rcases hbc : buildChildren cs 0 (w.updateData e (fun dd =>
          (⟨(applyBundle dd.comps b).filter
              (fun q => decide (q.1 ∉ comp.filter (fun cc => decide (cc ∉ bundleIds b)))),
            dd.children⟩ : EntityData))) ch with ⟨w4, rem, es, recs⟩
      obtain ⟨hWF4, hle4, hLC, hLD, hLE, hLF, hLG, hLH⟩ :=
        buildChildrenFrame cs 0 _ ch hWF3 hwfl hand hsep3 w4 rem es recs hbc
      have hpieces := Fragment.build_pieces nm h1 hbase hbc
      rw [hpieces] at hb
      injection hb with hbw hbr
      subst hbw
      subst hbr
      have he4 : w4.lookup e = some ⟨(applyBundle d.comps b).filter
          (fun q => decide (q.1 ∉ comp.filter (fun cc => decide (cc ∉ bundleIds b)))),
          d.children⟩ := by
        have hnot : e ∉ targetsPairs (ch.filter
            (fun p => decide (p.1 ∈ resolveAnchors cs 0))) :=
          fun hmem => hndT'.1 (targets_filter_subset _ hmem)
        rw [hLC e he_lt hnot, hlook3 e, if_pos rfl]
      have hrpw : RealizedPairs w rem := by rw [hLD]; exact hrp.filter _
      have hndrem : (targetsPairs rem).Nodup := by
        rw [hLD]
        exact List.Nodup.sublist (targetsPairs_sublist (List.filter_sublist _)) hndT'.2
      have hrem_in : ∀ x : Nat, x ∈ targetsPairs rem → x ∈ targetsPairs ch := by
        rw [hLD]; intro x hx; exact targets_filter_subset _ hx
      have hrem_not_vis : ∀ x : Nat, x ∈ targetsPairs rem →
          x ∉ targetsPairs (ch.filter (fun p => decide (p.1 ∈ resolveAnchors cs 0))) := by
        rw [hLD]
        intro x hx hxv
        refine targets_filter_disjoint hndT'.2
          (fun p => decide (p.1 ∈ resolveAnchors cs 0))
          (fun p => decide (p.1 ∉ resolveAnchors cs 0)) ?_ x hxv hx
        intro y h1y h2y
        simp only [decide_eq_true_eq] at h1y h2y
        exact h2y h1y
      have hrem_lt : ∀ x : Nat, x ∈ targetsPairs rem → x < w.nextId :=
        fun x hx => targets_lt_nextId hw hrp x (hrem_in x hx)
      have hrem_ne : ∀ x : Nat, x ∈ targetsPairs rem → ¬ x = e :=
        by
        intro x hx hxe
        apply hndT'.1
        rw [← hxe]
        exact hrem_in x hx
      have hrp5 : RealizedPairs (w4.replaceChildren e es) rem := by
        apply RealizedPairs.agreeRP rem w _ hrpw
        intro x hx
        rw [World.lookup_replaceChildren, if_neg (hrem_ne x hx),
          hLC x (hrem_lt x hx) (hrem_not_vis x hx), hlook3 x, if_neg (hrem_ne x hx)]
      obtain ⟨hkillO, hframeO⟩ := orphanFoldFrame rem (w4.replaceChildren e es) hrp5 hndrem
      -- per-entity lookup through the tail of the pipeline, for x outside rem targets
      have hpost : ∀ x : Nat, x ∉ targetsPairs rem →
          (rem.foldl orphanStep (w4.replaceChildren e es)).lookup x =
            if x = e then (w4.lookup x).map (fun dd => { dd with children := es })
            else w4.lookup x := by
        intro x hx
        rw [hframeO x hx, World.lookup_replaceChildren]
      have hvis_not_rem : ∀ x : Nat,
          x ∈ targetsPairs (ch.filter (fun p => decide (p.1 ∈ resolveAnchors cs 0))) →
          x ∉ targetsPairs rem := by
        intro x hxv hxr
        exact hrem_not_vis x hxr hxv
      have he_not_rem : e ∉ targetsPairs rem := fun hmem => hrem_ne e hmem rfl
      have hn4 : w.nextId ≤ w4.nextId := hle4
      have hnfin : (rem.foldl orphanStep (w4.replaceChildren e es)).nextId = w4.nextId := by
        rw [orphanFold_nextId, World.nextId_replaceChildren]
      refine ⟨?_, ?_, ?_, rfl, ?_, ?_, ?_, ?_, ?_, ?_⟩
      · exact WF.orphanFold (hWF4.updateData e _) rem
      · rw [hnfin]; exact hn4
      · -- frame
        intro x hx hxt
        rw [Receipt.targets_mk] at hxt
        simp only [Option.toList_some, List.cons_append, List.nil_append,
          List.mem_cons, not_or] at hxt
        have hxr : x ∉ targetsPairs rem := fun hmem => hxt.2 (hrem_in x hmem)
        have hxv : x ∉ targetsPairs (ch.filter
            (fun p => decide (p.1 ∈ resolveAnchors cs 0))) :=
          fun hmem => hxt.2 (targets_filter_subset _ hmem)
        rw [hpost x hxr, if_neg hxt.1, hLC x hx hxv, hlook3 x, if_neg hxt.1]
      · -- target alive
        refine ⟨e, rfl, ?_⟩
        rw [hpost e he_not_rem, if_pos rfl, he4]
        rfl
      · -- targets containment
        intro x hx
        rw [Receipt.targets_mk] at hx ⊢
        simp only [Option.toList_some, List.cons_append, List.nil_append,
          List.mem_cons] at hx ⊢
        rcases hx with hx | hx
        · exact Or.inl (Or.inl hx)
        · rcases hLH x hx with hold | ⟨h5, h6⟩
          · exact Or.inl (Or.inr hold)
          · refine Or.inr ⟨h5, ?_⟩
            rw [hnfin]
            exact h6
      · -- orphan kill
        intro p hp hpnot x hx
        simp only [Fragment.childList] at hpnot
        have hprem : p ∈ rem := by
          rw [hLD]
          refine List.mem_filter.mpr ⟨hp, ?_⟩
          simp only [decide_eq_true_eq]
          exact hpnot
        exact hkillO x (mem_targetsPairs_of_entry hprem hx)
      · -- visited keep
        intro p hp hpmem
        simp only [Fragment.childList] at hpmem
        obtain ⟨cr', hcr1, hcr2, e1, he1, halive1⟩ := hLG p hp hpmem
        refine ⟨cr', hcr1, hcr2, e1, he1, ?_⟩
        have he1t : e1 ∈ p.2.targets := by
          rcases p with ⟨a0, tg0, c0, ch0⟩
          simp only [Receipt.target] at he1
          rw [Receipt.targets_mk, he1]
          simp
        have he1v : e1 ∈ targetsPairs (ch.filter
            (fun q => decide (q.1 ∈ resolveAnchors cs 0))) :=
          mem_targetsPairs_of_entry (List.mem_filter.mpr ⟨hp, by
            simp only [decide_eq_true_eq]; exact hpmem⟩) he1t
        have he1r : e1 ∉ targetsPairs rem := hvis_not_rem e1 he1v
        have he1ne : ¬ e1 = e := by
          intro hcontra
          apply hndT'.1
          rw [← hcontra]
          exact targets_filter_subset _ he1v
        rw [hpost e1 he1r, if_neg he1ne]
        exact halive1
      · -- new receipt keys
        intro a2 ha2
        simp only [Fragment.childList]
        exact hLF a2 ha2
      · -- target entity data
        intro e0 he0
        injection he0 with he0
        subst he0
        refine ⟨d, ⟨(applyBundle d.comps b).filter
            (fun q => decide (q.1 ∉ comp.filter (fun cc => decide (cc ∉ bundleIds b)))),
            es⟩, hl, ?_, ?_, ?_⟩
        · rw [hpost e he_not_rem, if_pos rfl, he4]
          rfl
        · simp only []
          exact hLE
        · intro k
          simp only [Fragment.bundle, Receipt.components]
          rw [alookup_filter_not_mem, alookup_applyBundle]
          by_cases hk1 : k ∈ bundleIds b
          · have hkb : k ∈ b.map Prod.fst := List.mem_dedup.mp hk1
            obtain ⟨v, hv⟩ := lastVal_isSome_of_mem hkb
            have hknl : k ∉ comp.filter (fun cc => decide (cc ∉ bundleIds b)) := by
              intro hmem
              have := List.mem_filter.mp hmem
              simp only [decide_eq_true_eq] at this
              exact this.2 hk1
            rw [if_neg hknl, if_pos hk1, hv]
            rfl
          · rw [if_neg hk1]
            have hlv : lastVal b k = none :=
              lastVal_eq_none_of_not_mem (fun hmem => hk1 (List.mem_dedup.mpr hmem))
            rw [hlv]
            by_cases hk2 : k ∈ comp
            · have hkl : k ∈ comp.filter (fun cc => decide (cc ∉ bundleIds b)) :=
                List.mem_filter.mpr ⟨hk2, by simp only [decide_eq_true_eq]; exact hk1⟩
              rw [if_pos hkl, if_pos hk2]
            · have hknl : k ∉ comp.filter (fun cc => decide (cc ∉ bundleIds b)) := by
                intro hmem
                exact hk2 (List.mem_filter.mp hmem).1
              rw [if_neg hknl, if_neg hk2]
              rfl

theorem buildChildrenFrame : ∀ (cs : List Fragment) (i : Nat) (w : World)
    (old : List (Anchor × Receipt)), w.WF → wfL cs = true →
    anchorsNodup (resolveAnchors cs i) = true → SepPairs w old →
    ∀ w' rem es recs, buildChildren cs i w old = (w', rem, es, recs) →
      w'.WF ∧ w.nextId ≤ w'.nextId ∧
      (∀ x : Nat, x < w.nextId →
        x ∉ targetsPairs (old.filter (fun p => decide (p.1 ∈ resolveAnchors cs i))) →
        w'.lookup x = w.lookup x) ∧
      rem = old.filter (fun p => decide (p.1 ∉ resolveAnchors cs i)) ∧
      es = recs.map (fun p => p.2.target.getD 0) ∧
      (∀ a ∈ recs.map Prod.fst, a ∈ resolveAnchors cs i) ∧
      (∀ p ∈ old, p.1 ∈ resolveAnchors cs i →
        ∃ cr', alookup recs p.1 = some cr' ∧ cr'.target = p.2.target ∧
          ∃ e1, p.2.target = some e1 ∧ (w'.lookup e1).isSome = true) ∧
      (∀ x : Nat, x ∈ targetsPairs recs →
        x ∈ targetsPairs old ∨ (w.nextId ≤ x ∧ x < w'.nextId))
  | [], i, w, old, hw, _, _, hsepp, w', rem, es, recs, hb => by
    rw [buildChildren_nil] at hb
    injection hb with h1 hrest
    injection hrest with h2 hrest2
    injection hrest2 with h3 h4
    subst h1
    subst h2
    subst h3
    subst h4
    have hfilt : old.filter
        (fun p => decide (p.1 ∉ resolveAnchors ([] : List Fragment) i)) = old := by
      apply List.filter_eq_self.mpr
      intro p _
      simp [resolveAnchors]
    refine ⟨hw, le_refl _, ?_, hfilt.symm, rfl, ?_, ?_, ?_⟩
    · intro x _ _; rfl
    · intro a ha; simp at ha
    · intro p _ hp; simp [resolveAnchors] at hp
    · intro x hx; simp [targetsPairs] at hx
  | c :: cs, i, w, old, hw, hwf, hnd, hsepp, w', rem, es, recs, hb => by
    obtain ⟨hrp, hndT, hndK⟩ := hsepp
    have hwfc : c.wf = true := by
      simp only [wfL, Bool.and_eq_true] at hwf; exact hwf.1
    have hwfcs : wfL cs = true := by
      simp only [wfL, Bool.and_eq_true] at hwf; exact hwf.2
    rcases ha : anchorOf c.name i with ⟨a, i'⟩
    have hres : resolveAnchors (c :: cs) i = a :: resolveAnchors cs i' := by
      rw [resolveAnchors_cons, ha]
    rw [hres] at hnd ⊢
    have hnd' := anchorsNodup_cons.mp hnd
    rcases halk : alookup old a with _ | cr0
    · -- anchor not present in the old receipt map: the child is built fresh
      have hanotin_keys : a ∉ old.map Prod.fst := alookup_eq_none.mp halk
      have hrm : removeA old a = (none, old) := by
        rw [removeA_eq old a hndK, halk, filter_ne_of_not_mem hanotin_keys]
      rcases hb1 : Fragment.build c w Receipt.empty with ⟨w1, cr⟩
      obtain ⟨hWF1, hlt1, hF1, htgt1, hrange1, hndT1, hM1⟩ :=
        buildFresh c w hw hwfc w1 cr hb1
      have holdlt := targets_lt_nextId hw hrp
      have hsepp1 : SepPairs w1 old := by
        refine ⟨?_, hndT, hndK⟩
        apply RealizedPairs.agreeRP old w w1 hrp
        intro x hx
        exact hF1 x (holdlt x hx)
      rcases hb2 : buildChildren cs i' w1 old with ⟨w2, rem2, es2, recs2⟩
      obtain ⟨hWF2, hle2, hLC2, hLD2, hLE2, hLF2, hLG2, hLH2⟩ :=
        buildChildrenFrame cs i' w1 old hWF1 hwfcs hnd'.2 hsepp1 w2 rem2 es2 recs2 hb2
      have hstep := buildChildren_cons_pieces ha hrm hb1 hb2
      have hanotin : a ∉ recs2.map Prod.fst := fun hmem => hnd'.1 (hLF2 a hmem)
      rw [hstep, if_neg hanotin] at hb
      injection hb with h1 hrest
      injection hrest with h2 hrest2
      injection hrest2 with h3 h4
      subst h1
      subst h2
      subst h3
      subst h4
      have hkeyne : ∀ p ∈ old, ¬ p.1 = a := by
        intro p hp hpa
        apply hanotin_keys
        rw [← hpa]
        exact List.mem_map_of_mem Prod.fst hp
      have hfiltv : old.filter (fun p => decide (p.1 ∈ a :: resolveAnchors cs i'))
          = old.filter (fun p => decide (p.1 ∈ resolveAnchors cs i')) := by
        apply List.filter_congr
        intro p hp
        simp [List.mem_cons, hkeyne p hp]
      have hfiltr : old.filter (fun p => decide (p.1 ∉ a :: resolveAnchors cs i'))
          = old.filter (fun p => decide (p.1 ∉ resolveAnchors cs i')) := by
        apply List.filter_congr
        intro p hp
        simp [List.mem_cons, hkeyne p hp]
      refine ⟨hWF2, le_trans (le_of_lt hlt1) hle2, ?_, ?_, ?_, ?_, ?_, ?_⟩
      · intro x hx hxm
        rw [hfiltv] at hxm
        rw [hLC2 x (lt_of_lt_of_le hx (le_of_lt hlt1)) hxm, hF1 x hx]
      · rw [hfiltr]
        exact hLD2
      · simp only [List.map_cons]
        rw [hLE2]
      · intro a2 ha2
        rw [List.map_cons] at ha2
        rcases List.mem_cons.mp ha2 with ha2 | ha2
        · rw [ha2]; exact List.mem_cons_self _ _
        · exact List.mem_cons_of_mem _ (hLF2 a2 ha2)
      · intro p hp hpmem
        rcases List.mem_cons.mp hpmem with hpa | hpmem'
        · exact absurd hpa (hkeyne p hp)
        · obtain ⟨cr', hcr1, hcr2, e1, he1, halive1⟩ := hLG2 p hp hpmem'
          refine ⟨cr', ?_, hcr2, e1, he1, halive1⟩
          simp only [alookup]
          rw [if_neg (fun h => (hkeyne p hp) (h.symm))]
          exact hcr1
      · intro x hxm
        rw [targetsPairs_cons] at hxm
        rcases List.mem_append.mp hxm with hxm | hxm
        · obtain ⟨h5, h6⟩ := hrange1 x hxm
          exact Or.inr ⟨h5, lt_of_lt_of_le h6 hle2⟩
        · rcases hLH2 x hxm with hold | ⟨h5, h6⟩
          · exact Or.inl hold
          · exact Or.inr ⟨le_trans (le_of_lt hlt1) h5, h6⟩
    · -- anchor present: its receipt is pulled out and rebuilt
      have hrm : removeA old a = (some cr0, old.filter (fun p => decide (p.1 ≠ a))) := by
        rw [removeA_eq old a hndK, halk]
      have hmem0 : (a, cr0) ∈ old := alookup_some_mem halk
      have hre0 : Realized w cr0 := hrp.mem hmem0
      have hnd0 : cr0.targets.Nodup := targets_entry_nodup hndT hmem0
      have hfeq : old.filter (fun p => decide (p.1 = a)) = [(a, cr0)] :=
        filter_key_eq hndK halk
      have htp_a : targetsPairs (old.filter (fun p => decide (p.1 = a)))
          = cr0.targets := by
        rw [hfeq, targetsPairs_cons]
        simp [targetsPairs]
      rcases hb1 : Fragment.build c w cr0 with ⟨w1, cr'⟩
      obtain ⟨hWF1, hle1, hC1, hD1, hD21, hE1, hFk1, hG1, hH1, hI1⟩ :=
        buildFrame c w cr0 hw hwfc ⟨hre0, hnd0⟩ w1 cr' hb1
      have hdisj0 : ∀ x : Nat,
          x ∈ targetsPairs (old.filter (fun p => decide (p.1 ≠ a))) →
          x ∉ cr0.targets := by
        intro x hx hxmem
        refine targets_filter_disjoint hndT (fun p => decide (p.1 ≠ a))
          (fun p => decide (p.1 = a)) ?_ x hx ?_
        · intro y h1y h2y
          simp only [decide_eq_true_eq] at h1y h2y
          exact h1y h2y
        · rw [htp_a]
          exact hxmem
      have holdlt := targets_lt_nextId hw hrp
      have hsubl : (old.filter (fun p => decide (p.1 ≠ a))).Sublist old :=
        List.filter_sublist _
      have hsepp1 : SepPairs w1 (old.filter (fun p => decide (p.1 ≠ a))) := by
        refine ⟨?_, List.Nodup.sublist (targetsPairs_sublist hsubl) hndT,
          List.Nodup.sublist (hsubl.map Prod.fst) hndK⟩
        apply RealizedPairs.agreeRP _ w w1 (hrp.filter _)
        intro x hx
        exact hC1 x (holdlt x (targets_filter_subset _ hx)) (hdisj0 x hx)
      rcases hb2 : buildChildren cs i' w1 (old.filter (fun p => decide (p.1 ≠ a)))
        with ⟨w2, rem2, es2, recs2⟩
      obtain ⟨hWF2, hle2, hLC2, hLD2, hLE2, hLF2, hLG2, hLH2⟩ :=
        buildChildrenFrame cs i' w1 _ hWF1 hwfcs hnd'.2 hsepp1 w2 rem2 es2 recs2 hb2
      have hstep := buildChildren_cons_pieces ha hrm hb1 hb2
      have hanotin : a ∉ recs2.map Prod.fst := fun hmem => hnd'.1 (hLF2 a hmem)
      rw [hstep, if_neg hanotin] at hb
      injection hb with h1 hrest
      injection hrest with h2 hrest2
      injection hrest2 with h3 h4
      subst h1
      subst h2
      subst h3
      subst h4
      have hvis_full : ∀ x : Nat, x ∈ targetsPairs ((old.filter
            (fun p => decide (p.1 ≠ a))).filter
            (fun p => decide (p.1 ∈ resolveAnchors cs i'))) →
          x ∈ targetsPairs (old.filter
            (fun p => decide (p.1 ∈ a :: resolveAnchors cs i'))) := by
        intro x hx
        obtain ⟨q, hq, hxq⟩ := mem_targetsPairs.mp hx
        have hq1 := List.mem_filter.mp hq
        have hq2 := List.mem_filter.mp hq1.1
        refine mem_targetsPairs_of_entry (List.mem_filter.mpr ⟨hq2.1, ?_⟩) hxq
        simp only [decide_eq_true_eq] at hq1 ⊢
        exact List.mem_cons_of_mem _ hq1.2
      have hcr0_vis : ∀ x : Nat, x ∈ cr0.targets →
          x ∈ targetsPairs (old.filter
            (fun p => decide (p.1 ∈ a :: resolveAnchors cs i'))) := by
        intro x hx
        refine mem_targetsPairs_of_entry (List.mem_filter.mpr ⟨hmem0, ?_⟩) hx
        simp only [decide_eq_true_eq]
        exact List.mem_cons_self _ _
      refine ⟨hWF2, le_trans hle1 hle2, ?_, ?_, ?_, ?_, ?_, ?_⟩
      · intro x hx hxm
        rw [hLC2 x (lt_of_lt_of_le hx hle1) (fun hmem => hxm (hvis_full x hmem)),
          hC1 x hx (fun hmem => hxm (hcr0_vis x hmem))]
      · rw [hLD2]
        rw [List.filter_filter]
        apply List.filter_congr
        intro p _
        by_cases h1p : p.1 = a
        · simp [h1p, hnd'.1]
        · by_cases h2p : p.1 ∈ resolveAnchors cs i' <;> simp [h1p, h2p]
      · simp only [List.map_cons]
        rw [hLE2]
      · intro a2 ha2
        rw [List.map_cons] at ha2
        rcases List.mem_cons.mp ha2 with ha2 | ha2
        · rw [ha2]; exact List.mem_cons_self _ _
        · exact List.mem_cons_of_mem _ (hLF2 a2 ha2)
      · intro p hp hpmem
        rcases List.mem_cons.mp hpmem with hpa | hpmem'
        · -- this entry is the rebuilt one
          have hpm : alookup old p.1 = some p.2 := alookup_of_mem_nodup hndK hp
          rw [hpa, halk] at hpm
          injection hpm with hpm
          obtain ⟨e1, he1t, halive1⟩ := hD21
          refine ⟨cr', ?_, ?_, e1, ?_, ?_⟩
          · simp only [alookup]
            rw [if_pos hpa.symm]
          · rw [hD1, ← hpm]
          · rw [← hpm, ← hD1, he1t]
          · have he1cr0 : e1 ∈ cr0.targets := by
              have : cr0.target = some e1 := by rw [← hD1]; exact he1t
              rcases cr0 with ⟨tg0, c0, ch0⟩
              simp only [Receipt.target] at this
              subst this
              rw [Receipt.targets_mk]
              simp
            have he1lt : e1 < w1.nextId := by
              apply hWF1.lookup_lt
              exact (Option.isSome_iff_exists.mp halive1).choose_spec
            have he1nvis : e1 ∉ targetsPairs ((old.filter
                (fun p => decide (p.1 ≠ a))).filter
                (fun p => decide (p.1 ∈ resolveAnchors cs i'))) := by
              intro hmem
              exact hdisj0 e1 (targets_filter_subset _ hmem) he1cr0
            rw [hLC2 e1 he1lt he1nvis]
            exact halive1
        · have hp1a : ¬ p.1 = a := by
            intro hcontra
            rw [hcontra] at hpmem'
            exact hnd'.1 hpmem'
          have hp' : p ∈ old.filter (fun p => decide (p.1 ≠ a)) :=
            List.mem_filter.mpr ⟨hp, by simp only [decide_eq_true_eq]; exact hp1a⟩
          obtain ⟨cr'', hcr1, hcr2, e1, he1, halive1⟩ := hLG2 p hp' hpmem'
          refine ⟨cr'', ?_, hcr2, e1, he1, halive1⟩
          simp only [alookup]
          rw [if_neg (fun h => hp1a h.symm)]
          exact hcr1
      · intro x hxm
        rw [targetsPairs_cons] at hxm
        rcases List.mem_append.mp hxm with hxm | hxm
        · rcases hE1 x hxm with hold | ⟨h5, h6⟩
          · exact Or.inl (mem_targetsPairs_of_entry hmem0 hold)
          · exact Or.inr ⟨h5, lt_of_lt_of_le h6 hle2⟩
        · rcases hLH2 x hxm with hold | ⟨h5, h6⟩
          · exact Or.inl (targets_filter_subset _ hold)
          · exact Or.inr ⟨le_trans hle1 h5, h6⟩

end

/-! ### Receipt keys after a build -/

theorem buildChildren_keys : ∀ (cs : List Fragment) (i : Nat) (w : World)
    (old : List (Anchor × Receipt)),
    anchorsNodup (resolveAnchors cs i) = true →
    ∀ w' rem es recs, buildChildren cs i w old = (w', rem, es, recs) →
      recs.map Prod.fst = resolveAnchors cs i
  | [], i, w, old, _, w', rem, es, recs, hb => by
    rw [buildChildren_nil] at hb
    injection hb with h1 hrest
    injection hrest with h2 hrest2
    injection hrest2 with h3 h4
    subst h4
    simp [resolveAnchors]
  | c :: cs, i, w, old, hnd, w', rem, es, recs, hb => by
    rcases ha : anchorOf c.name i with ⟨a, i'⟩
    have hres : resolveAnchors (c :: cs) i = a :: resolveAnchors cs i' := by
      rw [resolveAnchors_cons, ha]
    rw [hres] at hnd ⊢
    have hnd' := anchorsNodup_cons.mp hnd
    rcases hrm : removeA old a with ⟨found, old'⟩
    rcases hb1 : Fragment.build c w (found.getD Receipt.empty) with ⟨w1, cr'⟩
    rcases hb2 : buildChildren cs i' w1 old' with ⟨w2, rem2, es2, recs2⟩
    have ih := buildChildren_keys cs i' w1 old' hnd'.2 w2 rem2 es2 recs2 hb2
    rw [buildChildren_cons_pieces ha hrm hb1 hb2] at hb
    injection hb with h1 hrest
    injection hrest with h2 hrest2
    injection hrest2 with h3 h4
    have hanotin : a ∉ recs2.map Prod.fst := by
      rw [ih]; exact hnd'.1
    rw [if_neg hanotin] at h4
    subst h4
    rw [List.map_cons, ih]

theorem Fragment.wf_anchors : ∀ (f : Fragment), f.wf = true →
    anchorsNodup (resolveAnchors f.childList 0) = true
  | .mk _ _ _, h => (Fragment.wf_parts h).1

theorem build_keys : ∀ (f : Fragment) (w : World) (r : Receipt),
    anchorsNodup (resolveAnchors f.childList 0) = true →
    ∀ w' r', f.build w r = (w', r') →
      r'.children.map Prod.fst = resolveAnchors f.childList 0
  | .mk nm b cs, w, r, hnd, w', r', hb => by
    rcases h1 : resolveTarget w r with ⟨w1, e⟩
    rcases h3 : buildChildren cs 0
        ((r.components.filter (fun c => decide (c ∉ bundleIds b))).foldl
          (fun w2 c => w2.removeById e c) (w1.insertBundle e b)) r.children
      with ⟨w4, rem, es, recs⟩
    rw [Fragment.build_pieces nm h1 rfl h3] at hb
    injection hb with hbw hbr
    subst hbr
    simp only [Receipt.children, Fragment.childList] at hnd ⊢
    exact buildChildren_keys cs 0 _ r.children hnd w4 rem es recs h3

/-! ### Claims C2, C3, C4 -/

/-- C2: when a node is rebuilt onto its live recorded target, exactly the
component types in (previous applied components minus the new bundle's
component ids) are removed from the entity, the bundle's components take the
bundle's values, and every component type outside both sets keeps the value it
had before the build — in particular one added externally between builds. -/
theorem component_delta (f : Fragment) (w : World) (r : Receipt)
    (hw : w.WF) (hwf : f.wf = true) (hsep : SepR w r)
    (e : Entity) (he : r.target = some e) :
    ∃ d d', w.lookup e = some d ∧ (f.build w r).1.lookup e = some d' ∧
      (∀ k : ComponentId, k ∈ r.components → k ∉ bundleIds f.bundle →
        alookup d'.comps k = none) ∧
      (∀ k : ComponentId, k ∉ r.components → k ∉ bundleIds f.bundle →
        alookup d'.comps k = alookup d.comps k) ∧
      (∀ k : ComponentId, k ∈ bundleIds f.bundle →
        alookup d'.comps k = lastVal f.bundle k) := by
  rcases hb : f.build w r with ⟨w', r'⟩
  obtain ⟨_, _, _, _, _, _, _, _, _, hJ⟩ := buildFrame f w r hw hwf hsep w' r' hb
  obtain ⟨d, d', hd, hd', _, hk⟩ := hJ e he
  refine ⟨d, d', hd, hd', ?_, ?_, ?_⟩
  · intro k hk1 hk2
    rw [hk k, if_neg hk2, if_pos hk1]
  · intro k hk1 hk2
    rw [hk k, if_neg hk2, if_neg hk1]
  · intro k hk1
    rw [hk k, if_pos hk1]

/-- C3: after a build, every anchor of the old receipt map that is not
resolved from the current child list has all its recorded subtree entities
destroyed and its receipt dropped from the updated map, while every visited
anchor keeps its receipt with the same live target entity. -/
theorem orphan_cleanup (f : Fragment) (w : World) (r : Receipt)
    (hw : w.WF) (hwf : f.wf = true) (hsep : SepR w r)
    (w' : World) (r' : Receipt) (hb : f.build w r = (w', r')) :
    (∀ p ∈ r.children, p.1 ∉ resolveAnchors f.childList 0 →
      (∀ x ∈ p.2.targets, w'.lookup x = none) ∧
      alookup r'.children p.1 = none) ∧
    (∀ p ∈ r.children, p.1 ∈ resolveAnchors f.childList 0 →
      ∃ cr', alookup r'.children p.1 = some cr' ∧ cr'.target = p.2.target ∧
        ∃ e1, p.2.target = some e1 ∧ (w'.lookup e1).isSome = true) := by
  obtain ⟨_, _, _, _, _, _, hG, hH, hI, _⟩ := buildFrame f w r hw hwf hsep w' r' hb
  constructor
  · intro p hp hpn
    refine ⟨hG p hp hpn, ?_⟩
    apply alookup_eq_none.mpr
    intro hmem
    exact hpn (hI p.1 hmem)
  · exact hH

/-- C4: after a build, the store reports the target entity's child list as
exactly one handle per authored child, in authored order: the stored child
list is the updated receipt map's recorded targets in order, and the updated
receipt map's keys are exactly the anchors resolved from the authored child
list, in that order. -/
theorem child_order_fidelity (f : Fragment) (w : World) (r : Receipt)
    (hw : w.WF) (hwf : f.wf = true) (hsep : SepR w r)
    (w' : World) (r' : Receipt) (hb : f.build w r = (w', r')) :
    ∃ e d', r'.target = some e ∧ w'.lookup e = some d' ∧
      d'.children = r'.children.map (fun p => p.2.target.getD 0) ∧
      r'.children.map Prod.fst = resolveAnchors f.childList 0 := by
  obtain ⟨_, _, _, hD, hE, _, _, _, _, hJ⟩ := buildFrame f w r hw hwf hsep w' r' hb
  obtain ⟨e1, he1, _⟩ := hE
  have hrt : r.target = some e1 := by rw [← hD]; exact he1
  obtain ⟨d, d', _, hd', hch, _⟩ := hJ e1 hrt
  exact ⟨e1, d', he1, hd', hch, build_keys f w r (Fragment.wf_anchors f hwf) w' r' hb⟩

/-! ### A concrete realized scenario used by the claim witnesses: entity 0
carries component 7 and children 1, 2 recorded under anchors "a" and "b";
the new fragment writes component 8 and keeps only child "a". -/

def exW : World := ⟨3, [(0, ⟨[(7, 5)], [1, 2]⟩), (1, ⟨[], []⟩), (2, ⟨[], []⟩)]⟩

def exR : Receipt := .mk (some 0) [7]
  [(.named "a", .mk (some 1) [] []), (.named "b", .mk (some 2) [] [])]

def exF : Fragment := .mk none [(8, 9)] [.mk (some "a") [] []]

theorem exSep : SepR exW exR := by
  constructor
  · show Realized exW (Receipt.mk (some 0) [7]
      [(Anchor.named "a", Receipt.mk (some 1) [] []),
       (Anchor.named "b", Receipt.mk (some 2) [] [])])
    refine Realized.mk exW 0 [7] _ ⟨[(7, 5)], [1, 2]⟩ rfl rfl (by decide) ?_
    refine RealizedPairs.cons exW _ _ ?_ ?_
    · exact Realized.mk exW 1 [] [] ⟨[], []⟩ rfl rfl (by decide) (RealizedPairs.nil exW)
    · refine RealizedPairs.cons exW _ _ ?_ (RealizedPairs.nil exW)
      exact Realized.mk exW 2 [] [] ⟨[], []⟩ rfl rfl (by decide) (RealizedPairs.nil exW)
  · decide

theorem component_delta_witness :
    ∃ d d', exW.lookup 0 = some d ∧ (exF.build exW exR).1.lookup 0 = some d' ∧
      (∀ k : ComponentId, k ∈ exR.components → k ∉ bundleIds exF.bundle →
        alookup d'.comps k = none) ∧
      (∀ k : ComponentId, k ∉ exR.components → k ∉ bundleIds exF.bundle →
        alookup d'.comps k = alookup d.comps k) ∧
      (∀ k : ComponentId, k ∈ bundleIds exF.bundle →
        alookup d'.comps k = lastVal exF.bundle k) :=
  component_delta exF exW exR (by decide) (by decide) exSep 0 rfl

theorem orphan_cleanup_witness :
    (∀ p ∈ exR.children, p.1 ∉ resolveAnchors exF.childList 0 →
      (∀ x ∈ p.2.targets, (exF.build exW exR).1.lookup x = none) ∧
      alookup (exF.build exW exR).2.children p.1 = none) ∧
    (∀ p ∈ exR.children, p.1 ∈ resolveAnchors exF.childList 0 →
      ∃ cr', alookup (exF.build exW exR).2.children p.1 = some cr' ∧
        cr'.target = p.2.target ∧
        ∃ e1, p.2.target = some e1 ∧
          ((exF.build exW exR).1.lookup e1).isSome = true) :=
  orphan_cleanup exF exW exR (by decide) (by decide) exSep
    (exF.build exW exR).1 (exF.build exW exR).2 rfl

theorem child_order_fidelity_witness :
    ∃ e d', (exF.build exW exR).2.target = some e ∧
      (exF.build exW exR).1.lookup e = some d' ∧
      d'.children = (exF.build exW exR).2.children.map (fun p => p.2.target.getD 0) ∧
      (exF.build exW exR).2.children.map Prod.fst = resolveAnchors exF.childList 0 :=
  child_order_fidelity exF exW exR (by decide) (by decide) exSep
    (exF.build exW exR).1 (exF.build exW exR).2 rfl

/-! ### Registry lookups through insertA -/

theorem alookup_map_replace (l : List (Anchor × Receipt)) (k : Anchor) (v : Receipt)
    (a : Anchor) (h : ¬ a = k) :
    alookup (l.map (fun p => if p.1 = k then (p.1, v) else p)) a = alookup l a := by
  induction l with
  | nil => rfl
  | cons p t ih =>
    rw [List.map_cons]
    by_cases hp : p.1 = k
    · rw [if_pos hp]
      show alookup ((p.1, v) :: _) a = alookup (p :: t) a
      simp only [alookup]
      have hpa : ¬ p.1 = a := by
        rw [hp]
        intro hc
        exact h hc.symm
      rw [if_neg hpa, if_neg hpa, ih]
    · rw [if_neg hp]
      simp only [alookup]
      by_cases hpa : p.1 = a
      · rw [if_pos hpa, if_pos hpa]
      · rw [if_neg hpa, if_neg hpa, ih]

theorem alookup_map_replace_self : ∀ (l : List (Anchor × Receipt)) (k : Anchor) (v : Receipt),
    k ∈ l.map Prod.fst →
    alookup (l.map (fun p => if p.1 = k then (p.1, v) else p)) k = some v
  | [], k, v, hm => by simp at hm
  | p :: t, k, v, hm => by
    rw [List.map_cons]
    by_cases hp : p.1 = k
    · rw [if_pos hp]
      show alookup ((p.1, v) :: _) k = some v
      simp only [alookup]
      rw [if_pos hp]
    · rw [if_neg hp]
      rw [List.map_cons] at hm
      have hm' : k ∈ t.map Prod.fst := by
        rcases List.mem_cons.mp hm with h | h
        · exact absurd h.symm hp
        · exact h
      simp only [alookup]
      rw [if_neg hp]
      exact alookup_map_replace_self t k v hm'

theorem alookup_insertA_ne (l : List (Anchor × Receipt)) (k : Anchor) (v : Receipt)
    (a : Anchor) (h : ¬ a = k) : alookup (insertA l k v) a = alookup l a := by
  unfold insertA
  by_cases hm : k ∈ l.map Prod.fst
  · rw [if_pos hm]
    exact alookup_map_replace l k v a h
  · rw [if_neg hm, alookup_append]
    have h1 : alookup [(k, v)] a = none := by
      simp only [alookup]
      rw [if_neg (fun hc => h hc.symm)]
    rw [h1, Option.or_none]

theorem alookup_insertA_self (l : List (Anchor × Receipt)) (k : Anchor) (v : Receipt) :
    alookup (insertA l k v) k = some v := by
  unfold insertA
  by_cases hm : k ∈ l.map Prod.fst
  · rw [if_pos hm]
    exact alookup_map_replace_self l k v hm
  · rw [if_neg hm, alookup_append]
    have h0 : alookup l k = none := alookup_eq_none.mpr hm
    rw [h0]
    simp [alookup]

/-! ### Claim C7: the root registry never destroys a stale entry -/

/-- C7 (amended): a top-level receipt whose anchor is not resolved from the
built template is never destroyed — its registry binding survives every build
unchanged.  (Child receipts, by contrast, are orphan-cleaned; the original
claim's root half is refuted by `root_receipt_lifecycle_cex`.) -/
theorem root_receipt_lifecycle : ∀ (t : Template) (i : Nat) (w : World)
    (root : RootReceipts) (a : Anchor) (r : Receipt),
    alookup root a = some r → a ∉ resolveAnchors t i →
    alookup (buildRootGo t i w root).2 a = some r
  | [], _, w, root, a, r, ha, _ => by
    rw [buildRootGo_nil]
    exact ha
  | p :: ps, i, w, root, a, r, ha, hna => by
    rcases hai : anchorOf p.name i with ⟨a0, i'⟩
    have hres : resolveAnchors (p :: ps) i = a0 :: resolveAnchors ps i' := by
      rw [resolveAnchors_cons, hai]
    rw [hres] at hna
    simp only [List.mem_cons, not_or] at hna
    rcases hb1 : Fragment.build p w ((alookup root a0).getD Receipt.empty) with ⟨w1, r1⟩
    rw [buildRootGo_cons_pieces _ hai hb1]
    exact root_receipt_lifecycle ps i' w1 (insertA root a0 r1) a r
      (by rw [alookup_insertA_ne root a0 r1 a hna.1]; exact ha) hna.2

theorem root_receipt_lifecycle_witness :
    alookup ([(Anchor.named "x", Receipt.mk (some 0) [] [])] : RootReceipts)
        (Anchor.named "x") = some (Receipt.mk (some 0) [] []) ∧
    Anchor.named "x" ∉ resolveAnchors [Fragment.mk (some "y") [] []] 0 ∧
    alookup (buildRootGo [Fragment.mk (some "y") [] []] 0
        (World.mk 1 [(0, EntityData.mk [] [])])
        [(Anchor.named "x", Receipt.mk (some 0) [] [])]).2 (Anchor.named "x")
      = some (Receipt.mk (some 0) [] []) :=
  ⟨rfl, by decide,
    root_receipt_lifecycle [Fragment.mk (some "y") [] []] 0
      (World.mk 1 [(0, EntityData.mk [] [])])
      [(Anchor.named "x", Receipt.mk (some 0) [] [])]
      (Anchor.named "x") (Receipt.mk (some 0) [] []) rfl (by decide)⟩

/-- The two successive root builds refuting C7 as stated: `[named "x"]` from
an empty store and registry, then `[named "y"]` against the result. -/
def cexRun1 : World × RootReceipts :=
  buildTemplate [Fragment.mk (some "x") [] []] (World.mk 0 []) none

def cexRun2 : World × RootReceipts :=
  buildTemplate [Fragment.mk (some "y") [] []] cexRun1.1 (some cexRun1.2)

/-- Refutes C7 as stated: after building `[named "x"]` from an empty store and
registry and then building `[named "y"]`, the anchor `"x"` is absent from the
second template, yet its entity (entity 0) is still alive and its registry
binding still present — the root registry performs no orphan cleanup. -/
theorem root_receipt_lifecycle_cex :
    ((cexRun2.1.lookup 0).isSome = true) ∧
    ((alookup cexRun2.2 (Anchor.named "x")).isSome = true) := by
  decide

/-! ### Claim C10: the root build's frame -/

theorem buildRootFrame : ∀ (ps : List Fragment) (i : Nat) (w : World) (root : RootReceipts),
    w.WF → wfL ps = true → anchorsNodup (resolveAnchors ps i) = true →
    (∀ a ∈ resolveAnchors ps i, ∀ cr, alookup root a = some cr → SepR w cr) →
    (∀ a ∈ resolveAnchors ps i, ∀ a', ¬ a' = a → ∀ cr cr',
      alookup root a = some cr → alookup root a' = some cr' →
      ∀ x ∈ cr'.targets, x ∉ cr.targets) →
    (∀ a' cr', alookup root a' = some cr' → ∀ x : Nat, x ∈ cr'.targets → x < w.nextId) →
    ∀ w' root', buildRootGo ps i w root = (w', root') →
      w'.WF ∧ w.nextId ≤ w'.nextId ∧
      (∀ a, a ∉ resolveAnchors ps i → alookup root' a = alookup root a) ∧
      (∀ a cr, a ∉ resolveAnchors ps i → alookup root a = some cr →
        ∀ x ∈ cr.targets, w'.lookup x = w.lookup x)
  | [], i, w, root, hw, _, _, _, _, _, w', root', hb => by
    rw [buildRootGo_nil] at hb
    injection hb with h1 h2
    subst h1
    subst h2
    exact ⟨hw, le_refl _, fun a _ => rfl, fun a cr _ _ x _ => rfl⟩
  | p :: ps, i, w, root, hw, hwf, hnd, hsep, hdisj, hlt, w', root', hb => by
    have hwfp : p.wf = true := by
      simp only [wfL, Bool.and_eq_true] at hwf; exact hwf.1
    have hwfps : wfL ps = true := by
      simp only [wfL, Bool.and_eq_true] at hwf; exact hwf.2
    rcases hai : anchorOf p.name i with ⟨a0, i'⟩
    have hres : resolveAnchors (p :: ps) i = a0 :: resolveAnchors ps i' := by
      rw [resolveAnchors_cons, hai]
    rw [hres] at hnd hsep hdisj ⊢
    have hnd' := anchorsNodup_cons.mp hnd
    rcases hb1 : Fragment.build p w ((alookup root a0).getD Receipt.empty) with ⟨w1, r1⟩
    rw [buildRootGo_cons_pieces _ hai hb1] at hb
    have hra : ∀ a, ¬ a = a0 → alookup (insertA root a0 r1) a = alookup root a :=
      fun a h => alookup_insertA_ne root a0 r1 a h
    have hra0 : alookup (insertA root a0 r1) a0 = some r1 :=
      alookup_insertA_self root a0 r1
    rcases halk : alookup root a0 with _ | cr0
    · -- the head anchor has no registry entry yet: it is built fresh
      rw [halk] at hb1
      have hb1' : Fragment.build p w Receipt.empty = (w1, r1) := hb1
      obtain ⟨hWF1, hlt1, hF1, _, hrg1, _, _⟩ := buildFresh p w hw hwfp w1 r1 hb1'
      have hsep' : ∀ a ∈ resolveAnchors ps i', ∀ cr,
          alookup (insertA root a0 r1) a = some cr → SepR w1 cr := by
        intro a ha cr hcr
        have hne : ¬ a = a0 := by
          intro hc
          apply hnd'.1
          rw [← hc]
          exact ha
        rw [hra a hne] at hcr
        obtain ⟨hre, hndc⟩ := hsep a (List.mem_cons_of_mem _ ha) cr hcr
        refine ⟨Realized.agreeR cr w w1 hre ?_, hndc⟩
        intro x hx
        exact hF1 x (hlt a cr hcr x hx)
      have hdisj' : ∀ a ∈ resolveAnchors ps i', ∀ a', ¬ a' = a → ∀ cr cr',
          alookup (insertA root a0 r1) a = some cr →
          alookup (insertA root a0 r1) a' = some cr' →
          ∀ x ∈ cr'.targets, x ∉ cr.targets := by
        intro a ha a' hne cr cr' hcr hcr' x hx
        have hane : ¬ a = a0 := by
          intro hc
          apply hnd'.1
          rw [← hc]
          exact ha
        rw [hra a hane] at hcr
        by_cases ha' : a' = a0
        · subst ha'
          rw [hra0] at hcr'
          injection hcr' with hcr'
          subst hcr'
          obtain ⟨h5, _⟩ := hrg1 x hx
          intro hmem
          have h7 := hlt a cr hcr x hmem
          omega
        · rw [hra a' ha'] at hcr'
          exact hdisj a (List.mem_cons_of_mem _ ha) a' hne cr cr' hcr hcr' x hx
      have hlt' : ∀ a' cr', alookup (insertA root a0 r1) a' = some cr' →
          ∀ x : Nat, x ∈ cr'.targets → x < w1.nextId := by
        intro a' cr' hcr' x hx
        by_cases ha' : a' = a0
        · subst ha'
          rw [hra0] at hcr'
          injection hcr' with hcr'
          subst hcr'
          exact (hrg1 x hx).2
        · rw [hra a' ha'] at hcr'
          exact lt_of_lt_of_le (hlt a' cr' hcr' x hx) (le_of_lt hlt1)
      obtain ⟨hWF2, hle2, hreg2, hent2⟩ := buildRootFrame ps i' w1 (insertA root a0 r1)
        hWF1 hwfps hnd'.2 hsep' hdisj' hlt' w' root' hb
      refine ⟨hWF2, le_trans (le_of_lt hlt1) hle2, ?_, ?_⟩
      · intro a hna
        simp only [List.mem_cons, not_or] at hna
        rw [hreg2 a hna.2, hra a hna.1]
      · intro a cr hna hcr x hx
        simp only [List.mem_cons, not_or] at hna
        have hcr1 : alookup (insertA root a0 r1) a = some cr := by
          rw [hra a hna.1]
          exact hcr
        rw [hent2 a cr hna.2 hcr1 x hx]
        exact hF1 x (hlt a cr hcr x hx)
    · -- the head anchor's recorded receipt is rebuilt in place
      rw [halk] at hb1
      have hb1' : Fragment.build p w cr0 = (w1, r1) := hb1
      have hsep0 : SepR w cr0 := hsep a0 (List.mem_cons_self _ _) cr0 halk
      obtain ⟨hWF1, hle1, hC1, _, _, hcont1, _, _, _, _⟩ :=
        buildFrame p w cr0 hw hwfp hsep0 w1 r1 hb1'
      have hcr0lt : ∀ x ∈ cr0.targets, x < w.nextId :=
        fun x hx => hlt a0 cr0 halk x hx
      have hsep' : ∀ a ∈ resolveAnchors ps i', ∀ cr,
          alookup (insertA root a0 r1) a = some cr → SepR w1 cr := by
        intro a ha cr hcr
        have hne : ¬ a = a0 := by
          intro hc
          apply hnd'.1
          rw [← hc]
          exact ha
        rw [hra a hne] at hcr
        obtain ⟨hre, hndc⟩ := hsep a (List.mem_cons_of_mem _ ha) cr hcr
        refine ⟨Realized.agreeR cr w w1 hre ?_, hndc⟩
        intro x hx
        exact hC1 x (hlt a cr hcr x hx)
          (hdisj a0 (List.mem_cons_self _ _) a hne cr0 cr halk hcr x hx)
      have hdisj' : ∀ a ∈ resolveAnchors ps i', ∀ a', ¬ a' = a → ∀ cr cr',
          alookup (insertA root a0 r1) a = some cr →
          alookup (insertA root a0 r1) a' = some cr' →
          ∀ x ∈ cr'.targets, x ∉ cr.targets := by
        intro a ha a' hne cr cr' hcr hcr' x hx
        have hane : ¬ a = a0 := by
          intro hc
          apply hnd'.1
          rw [← hc]
          exact ha
        rw [hra a hane] at hcr
        by_cases ha' : a' = a0
        · subst ha'
          rw [hra0] at hcr'
          injection hcr' with hcr'
          subst hcr'
          rcases hcont1 x hx with hold | ⟨h5, _⟩
          · exact hdisj a (List.mem_cons_of_mem _ ha) a' hne cr cr0 hcr halk x hold
          · intro hmem
            have h7 := hlt a cr hcr x hmem
            omega
        · rw [hra a' ha'] at hcr'
          exact hdisj a (List.mem_cons_of_mem _ ha) a' hne cr cr' hcr hcr' x hx
      have hlt' : ∀ a' cr', alookup (insertA root a0 r1) a' = some cr' →
          ∀ x : Nat, x ∈ cr'.targets → x < w1.nextId := by
        intro a' cr' hcr' x hx
        by_cases ha' : a' = a0
        · subst ha'
          rw [hra0] at hcr'
          injection hcr' with hcr'
          subst hcr'
          rcases hcont1 x hx with hold | ⟨_, h6⟩
          · exact lt_of_lt_of_le (hcr0lt x hold) hle1
          · exact h6
        · rw [hra a' ha'] at hcr'
          exact lt_of_lt_of_le (hlt a' cr' hcr' x hx) hle1
      obtain ⟨hWF2, hle2, hreg2, hent2⟩ := buildRootFrame ps i' w1 (insertA root a0 r1)
        hWF1 hwfps hnd'.2 hsep' hdisj' hlt' w' root' hb
      refine ⟨hWF2, le_trans hle1 hle2, ?_, ?_⟩
      · intro a hna
        simp only [List.mem_cons, not_or] at hna
        rw [hreg2 a hna.2, hra a hna.1]
      · intro a cr hna hcr x hx
        simp only [List.mem_cons, not_or] at hna
        have hcr1 : alookup (insertA root a0 r1) a = some cr := by
          rw [hra a hna.1]
          exact hcr
        rw [hent2 a cr hna.2 hcr1 x hx]
        exact hC1 x (hlt a cr hcr x hx)
          (hdisj a0 (List.mem_cons_self _ _) a hna.1 cr0 cr halk hcr x hx)

/-- C10: a root-level build mutates only the registry entries whose anchors
are resolved from the template's top-level prototypes: every other entry
keeps its exact binding, and every entity recorded anywhere in such an
entry's receipt subtree is left untouched in the store — the root registry
performs no orphan cleanup. -/
theorem root_build_frame (t : Template) (w : World) (root : RootReceipts)
    (hw : w.WF) (hwf : t.wfT = true)
    (hsep : ∀ a ∈ resolveAnchors t 0, ∀ cr, alookup root a = some cr → SepR w cr)
    (hdisj : ∀ a ∈ resolveAnchors t 0, ∀ a', ¬ a' = a → ∀ cr cr',
      alookup root a = some cr → alookup root a' = some cr' →
      ∀ x ∈ cr'.targets, x ∉ cr.targets)
    (hlt : ∀ a' cr', alookup root a' = some cr' →
      ∀ x : Nat, x ∈ cr'.targets → x < w.nextId) :
    (∀ a, a ∉ resolveAnchors t 0 →
      alookup (buildTemplate t w (some root)).2 a = alookup root a) ∧
    (∀ a cr, a ∉ resolveAnchors t 0 → alookup root a = some cr →
      ∀ x ∈ cr.targets, (buildTemplate t w (some root)).1.lookup x = w.lookup x) := by
  have hparts : anchorsNodup (resolveAnchors t 0) = true ∧ wfL t = true := by
    simpa [Template.wfT, Bool.and_eq_true] using hwf
  obtain ⟨_, _, hreg, hent⟩ := buildRootFrame t 0 w root hw hparts.2 hparts.1
    hsep hdisj hlt (buildTemplate t w (some root)).1 (buildTemplate t w (some root)).2 rfl
  exact ⟨hreg, hent⟩

/-! ### Concrete run for the root-frame claim: registry holding anchor "x"
over entity 0, then a build of `[named "y"]`. -/

def exW10 : World := ⟨1, [(0, ⟨[], []⟩)]⟩

def exRoot : RootReceipts := [(Anchor.named "x", Receipt.mk (some 0) [] [])]

def exT10 : Template := [Fragment.mk (some "y") [] []]

theorem root_build_frame_witness :
    (∀ a, a ∉ resolveAnchors exT10 0 →
      alookup (buildTemplate exT10 exW10 (some exRoot)).2 a = alookup exRoot a) ∧
    (∀ a cr, a ∉ resolveAnchors exT10 0 → alookup exRoot a = some cr →
      ∀ x ∈ cr.targets,
        (buildTemplate exT10 exW10 (some exRoot)).1.lookup x = exW10.lookup x) :=
  root_build_frame exT10 exW10 exRoot (by decide) (by decide)
    (by
      intro a ha cr hcr
      have hres : resolveAnchors exT10 0 = [Anchor.named "y"] := rfl
      rw [hres] at ha
      have ha2 : a = Anchor.named "y" := List.mem_singleton.mp ha
      subst ha2
      have h0 : alookup exRoot (Anchor.named "y") = none := rfl
      rw [h0] at hcr
      exact Option.noConfusion hcr)
    (by
      intro a ha a' hne cr cr' hcr hcr' x hx
      have hres : resolveAnchors exT10 0 = [Anchor.named "y"] := rfl
      rw [hres] at ha
      have ha2 : a = Anchor.named "y" := List.mem_singleton.mp ha
      subst ha2
      have h0 : alookup exRoot (Anchor.named "y") = none := rfl
      rw [h0] at hcr
      exact Option.noConfusion hcr)
    (by
      intro a' cr' hcr' x hx
      have hm := alookup_some_mem hcr'
      have hr : exRoot = [(Anchor.named "x", Receipt.mk (some 0) [] [])] := rfl
      rw [hr] at hm
      have hm' := List.mem_singleton.mp hm
      have h2 : cr' = Receipt.mk (some 0) [] [] := congrArg Prod.snd hm'
      subst h2
      have ht : (Receipt.mk (some 0) [] []).targets = [0] := rfl
      rw [ht] at hx
      have hx0 : x = 0 := List.mem_singleton.mp hx
      subst hx0
      decide)

/-! ### Claim C8: leaf builds in closed form -/

/-- The world after building one fresh childless fragment: spawn, insert the
bundle, set the (empty) child list. -/
def leafWorld (b : List (ComponentId × Value)) (w : World) : World :=
  (w.spawnEmpty.1.insertBundle w.nextId b).replaceChildren w.nextId []

/-- The world after rebuilding a childless fragment onto its live recorded
target: insert the bundle, remove the stale components, set the (empty)
child list. -/
def leafLiveWorld (b : List (ComponentId × Value)) (comp : List ComponentId)
    (w : World) (e : Entity) : World :=
  (w.updateData e (fun dd => (⟨(applyBundle dd.comps b).filter
      (fun q => decide (q.1 ∉ comp.filter (fun cc => decide (cc ∉ bundleIds b)))),
    dd.children⟩ : EntityData))).replaceChildren e []

theorem leaf_build_empty (b : List (ComponentId × Value)) (w : World) :
    (Fragment.mk none b []).build w Receipt.empty =
      (leafWorld b w, Receipt.mk (some w.nextId) (bundleIds b) []) := by
  have h3 := buildChildren_nil 0 (w.spawnEmpty.1.insertBundle w.nextId b)
    ([] : List (Anchor × Receipt))
  exact Fragment.build_pieces none (resolveTarget_empty w) rfl h3

theorem leaf_build_live (b : List (ComponentId × Value)) (w : World) (e : Entity)
    (comp : List ComponentId) (halive : w.isAlive e = true) :
    (Fragment.mk none b []).build w (Receipt.mk (some e) comp []) =
      (leafLiveWorld b comp w e, Receipt.mk (some e) (bundleIds b) []) := by
  have h1 : resolveTarget w (Receipt.mk (some e) comp []) = (w, e) :=
    resolveTarget_live rfl halive
  have h2 : ((Receipt.mk (some e) comp []).components.filter
        (fun c => decide (c ∉ bundleIds b))).foldl
        (fun w' c => w'.removeById e c) (w.insertBundle e b)
      = w.updateData e (fun dd => (⟨(applyBundle dd.comps b).filter
          (fun q => decide (q.1 ∉ comp.filter (fun cc => decide (cc ∉ bundleIds b)))),
        dd.children⟩ : EntityData)) := by
    show (comp.filter (fun cc => decide (cc ∉ bundleIds b))).foldl
        (fun w' c => w'.removeById e c) (w.insertBundle e b) = _
    rw [World.foldl_removeById, World.insertBundle, World.updateData_updateData]
  have h3 := buildChildren_nil 0 (w.updateData e (fun dd =>
      (⟨(applyBundle dd.comps b).filter
          (fun q => decide (q.1 ∉ comp.filter (fun cc => decide (cc ∉ bundleIds b)))),
        dd.children⟩ : EntityData))) ([] : List (Anchor × Receipt))
  exact Fragment.build_pieces none h1 h2 h3

theorem leafWorld_nextId (b : List (ComponentId × Value)) (w : World) :
    (leafWorld b w).nextId = w.nextId + 1 := rfl

theorem leafWorld_WF (b : List (ComponentId × Value)) {w : World} (hw : w.WF) :
    (leafWorld b w).WF := (hw.spawn.updateData _ _).updateData _ _

theorem leafWorld_lookup (b : List (ComponentId × Value)) {w : World} (hw : w.WF)
    (x : Entity) :
    (leafWorld b w).lookup x =
      if x = w.nextId then some ⟨applyBundle [] b, []⟩ else w.lookup x := by
  show ((w.spawnEmpty.1.insertBundle w.nextId b).replaceChildren w.nextId []).lookup x = _
  by_cases hx : x = w.nextId
  · subst hx
    rw [World.lookup_replaceChildren, if_pos rfl, World.insertBundle,
      World.lookup_updateData, if_pos rfl, World.lookup_spawn hw, if_pos rfl,
      if_pos rfl]
    rfl
  · rw [World.lookup_replaceChildren, if_neg hx, World.insertBundle,
      World.lookup_updateData, if_neg hx, World.lookup_spawn hw, if_neg hx,
      if_neg hx]

theorem leafLiveWorld_nextId (b : List (ComponentId × Value)) (comp : List ComponentId)
    (w : World) (e : Entity) : (leafLiveWorld b comp w e).nextId = w.nextId := rfl

theorem leafLiveWorld_lookup (b : List (ComponentId × Value)) (comp : List ComponentId)
    (w : World) (e : Entity) (x : Entity) :
    (leafLiveWorld b comp w e).lookup x =
      if x = e then (w.lookup x).map (fun d => (⟨(applyBundle d.comps b).filter
          (fun q => decide (q.1 ∉ comp.filter (fun cc => decide (cc ∉ bundleIds b)))),
        []⟩ : EntityData))
      else w.lookup x := by
  show ((w.updateData e _).replaceChildren e []).lookup x = _
  by_cases hx : x = e
  · subst hx
    rw [World.lookup_replaceChildren, if_pos rfl, World.lookup_updateData, if_pos rfl,
      if_pos rfl]
    cases w.lookup x with
    | none => rfl
    | some d => rfl
  · rw [World.lookup_replaceChildren, if_neg hx, World.lookup_updateData, if_neg hx,
      if_neg hx]

theorem pass1_eq (P Q : List (ComponentId × Value)) (w : World) :
    buildTemplate [Fragment.mk none P [], Fragment.mk none Q []] w none =
      (leafWorld Q (leafWorld P w),
        [(Anchor.auto 0, Receipt.mk (some w.nextId) (bundleIds P) []),
         (Anchor.auto 1, Receipt.mk (some (w.nextId + 1)) (bundleIds Q) [])]) := by
  show buildRootGo [Fragment.mk none P [], Fragment.mk none Q []] 0 w [] = _
  rw [buildRootGo_cons_pieces _ rfl (leaf_build_empty P w),
    buildRootGo_cons_pieces _ rfl (leaf_build_empty Q (leafWorld P w)),
    buildRootGo_nil]
  rfl

theorem pass2_eq (P Q : List (ComponentId × Value)) (w : World) (hw : w.WF) :
    buildTemplate [Fragment.mk none Q [], Fragment.mk none P []]
      (leafWorld Q (leafWorld P w))
      (some [(Anchor.auto 0, Receipt.mk (some w.nextId) (bundleIds P) []),
             (Anchor.auto 1, Receipt.mk (some (w.nextId + 1)) (bundleIds Q) [])]) =
      (leafLiveWorld P (bundleIds Q)
         (leafLiveWorld Q (bundleIds P) (leafWorld Q (leafWorld P w)) w.nextId)
         (w.nextId + 1),
       [(Anchor.auto 0, Receipt.mk (some w.nextId) (bundleIds Q) []),
        (Anchor.auto 1, Receipt.mk (some (w.nextId + 1)) (bundleIds P) [])]) := by
  have hWP : (leafWorld P w).WF := leafWorld_WF P hw
  have hne01 : ¬ w.nextId = (leafWorld P w).nextId := by
    rw [leafWorld_nextId]
    omega
  have h_e0 : (leafWorld Q (leafWorld P w)).lookup w.nextId
      = some ⟨applyBundle [] P, []⟩ := by
    rw [leafWorld_lookup Q hWP w.nextId, if_neg hne01,
      leafWorld_lookup P hw w.nextId, if_pos rfl]
  have halive0 : (leafWorld Q (leafWorld P w)).isAlive w.nextId = true := by
    simp [World.isAlive, h_e0]
  have hb1 := leaf_build_live Q (leafWorld Q (leafWorld P w)) w.nextId
    (bundleIds P) halive0
  have h_e1R : (leafLiveWorld Q (bundleIds P) (leafWorld Q (leafWorld P w))
      w.nextId).lookup (w.nextId + 1) = some ⟨applyBundle [] Q, []⟩ := by
    rw [leafLiveWorld_lookup, if_neg (by omega : ¬ w.nextId + 1 = w.nextId),
      leafWorld_lookup Q hWP (w.nextId + 1), if_pos (leafWorld_nextId P w).symm]
  have halive1 : (leafLiveWorld Q (bundleIds P) (leafWorld Q (leafWorld P w))
      w.nextId).isAlive (w.nextId + 1) = true := by
    simp [World.isAlive, h_e1R]
  have hb2 := leaf_build_live P
    (leafLiveWorld Q (bundleIds P) (leafWorld Q (leafWorld P w)) w.nextId)
    (w.nextId + 1) (bundleIds Q) halive1
  show buildRootGo [Fragment.mk none Q [], Fragment.mk none P []] 0
    (leafWorld Q (leafWorld P w)) _ = _
  rw [buildRootGo_cons_pieces _ rfl hb1, buildRootGo_cons_pieces _ rfl hb2,
    buildRootGo_nil]
  rfl

/-- C8: reordering two unnamed top-level siblings `[P, Q]` to `[Q, P]`
reassigns the data by position, not by content: both builds bind anchor
`Auto 0` to the first entity spawned and `Auto 1` to the second, and after the
second build the first entity holds exactly Q's component data and the second
exactly P's. -/
theorem positional_identity (P Q : List (ComponentId × Value)) (w : World) (hw : w.WF)
    (w1 : World) (root1 : RootReceipts) (w2 : World) (root2 : RootReceipts)
    (hp1 : buildTemplate [Fragment.mk none P [], Fragment.mk none Q []] w none
      = (w1, root1))
    (hp2 : buildTemplate [Fragment.mk none Q [], Fragment.mk none P []] w1 (some root1)
      = (w2, root2)) :
    root1.map (fun p => (p.1, p.2.target)) =
      [(Anchor.auto 0, some w.nextId), (Anchor.auto 1, some (w.nextId + 1))] ∧
    root2.map (fun p => (p.1, p.2.target)) =
      [(Anchor.auto 0, some w.nextId), (Anchor.auto 1, some (w.nextId + 1))] ∧
    ∃ d1 d2, w2.lookup w.nextId = some d1 ∧ w2.lookup (w.nextId + 1) = some d2 ∧
      (∀ k : ComponentId, alookup d1.comps k =
        if k ∈ bundleIds Q then lastVal Q k else none) ∧
      (∀ k : ComponentId, alookup d2.comps k =
        if k ∈ bundleIds P then lastVal P k else none) := by
  rw [pass1_eq P Q w] at hp1
  injection hp1 with h1 h2
  subst h1
  subst h2
  rw [pass2_eq P Q w hw] at hp2
  injection hp2 with h3 h4
  subst h3
  subst h4
  refine ⟨rfl, rfl, ?_⟩
  have hWP : (leafWorld P w).WF := leafWorld_WF P hw
  have hne01 : ¬ w.nextId = (leafWorld P w).nextId := by
    rw [leafWorld_nextId]
    omega
  have h_e0 : (leafWorld Q (leafWorld P w)).lookup w.nextId
      = some ⟨applyBundle [] P, []⟩ := by
    rw [leafWorld_lookup Q hWP w.nextId, if_neg hne01,
      leafWorld_lookup P hw w.nextId, if_pos rfl]
  have h_e1R : (leafLiveWorld Q (bundleIds P) (leafWorld Q (leafWorld P w))
      w.nextId).lookup (w.nextId + 1) = some ⟨applyBundle [] Q, []⟩ := by
    rw [leafLiveWorld_lookup, if_neg (by omega : ¬ w.nextId + 1 = w.nextId),
      leafWorld_lookup Q hWP (w.nextId + 1), if_pos (leafWorld_nextId P w).symm]
  have h_e0R : (leafLiveWorld Q (bundleIds P) (leafWorld Q (leafWorld P w))
      w.nextId).lookup w.nextId = some ⟨(applyBundle (applyBundle [] P) Q).filter
        (fun q => decide (q.1 ∉ (bundleIds P).filter
          (fun cc => decide (cc ∉ bundleIds Q)))), []⟩ := by
    rw [leafLiveWorld_lookup, if_pos rfl, h_e0]
    rfl
  have hfin0 : (leafLiveWorld P (bundleIds Q)
      (leafLiveWorld Q (bundleIds P) (leafWorld Q (leafWorld P w)) w.nextId)
      (w.nextId + 1)).lookup w.nextId = some ⟨(applyBundle (applyBundle [] P) Q).filter
        (fun q => decide (q.1 ∉ (bundleIds P).filter
          (fun cc => decide (cc ∉ bundleIds Q)))), []⟩ := by
    rw [leafLiveWorld_lookup, if_neg (by omega : ¬ w.nextId = w.nextId + 1), h_e0R]
  have hfin1 : (leafLiveWorld P (bundleIds Q)
      (leafLiveWorld Q (bundleIds P) (leafWorld Q (leafWorld P w)) w.nextId)
      (w.nextId + 1)).lookup (w.nextId + 1) = some ⟨(applyBundle (applyBundle [] Q) P).filter
        (fun q => decide (q.1 ∉ (bundleIds Q).filter
          (fun cc => decide (cc ∉ bundleIds P)))), []⟩ := by
    rw [leafLiveWorld_lookup, if_pos rfl, h_e1R]
    rfl
  refine ⟨_, _, hfin0, hfin1, ?_, ?_⟩
  · intro k
    show alookup ((applyBundle (applyBundle [] P) Q).filter
      (fun q => decide (q.1 ∉ (bundleIds P).filter
        (fun cc => decide (cc ∉ bundleIds Q))))) k = _
    rw [alookup_filter_not_mem, alookup_applyBundle, alookup_applyBundle]
    by_cases hk : k ∈ bundleIds Q
    · have hkS : k ∉ (bundleIds P).filter (fun cc => decide (cc ∉ bundleIds Q)) := by
        intro hm
        have hm2 := List.mem_filter.mp hm
        simp only [decide_eq_true_eq] at hm2
        exact hm2.2 hk
      rw [if_neg hkS, if_pos hk]
      obtain ⟨v, hv⟩ := lastVal_isSome_of_mem (List.mem_dedup.mp hk)
      rw [hv]
      rfl
    · rw [if_neg hk]
      have hlvQ : lastVal Q k = none :=
        lastVal_eq_none_of_not_mem (fun hm => hk (List.mem_dedup.mpr hm))
      by_cases hkP : k ∈ bundleIds P
      · have hkS : k ∈ (bundleIds P).filter (fun cc => decide (cc ∉ bundleIds Q)) :=
          List.mem_filter.mpr ⟨hkP, by simp only [decide_eq_true_eq]; exact hk⟩
        rw [if_pos hkS]
      · have hkS : k ∉ (bundleIds P).filter (fun cc => decide (cc ∉ bundleIds Q)) :=
          fun hm => hkP (List.mem_filter.mp hm).1
        have hlvP : lastVal P k = none :=
          lastVal_eq_none_of_not_mem (fun hm => hkP (List.mem_dedup.mpr hm))
        rw [if_neg hkS, hlvQ, hlvP]
        rfl
  · intro k
    show alookup ((applyBundle (applyBundle [] Q) P).filter
      (fun q => decide (q.1 ∉ (bundleIds Q).filter
        (fun cc => decide (cc ∉ bundleIds P))))) k = _
    rw [alookup_filter_not_mem, alookup_applyBundle, alookup_applyBundle]
    by_cases hk : k ∈ bundleIds P
    · have hkS : k ∉ (bundleIds Q).filter (fun cc => decide (cc ∉ bundleIds P)) := by
        intro hm
        have hm2 := List.mem_filter.mp hm
        simp only [decide_eq_true_eq] at hm2
        exact hm2.2 hk
      rw [if_neg hkS, if_pos hk]
      obtain ⟨v, hv⟩ := lastVal_isSome_of_mem (List.mem_dedup.mp hk)
      rw [hv]
      rfl
    · rw [if_neg hk]
      have hlvP : lastVal P k = none :=
        lastVal_eq_none_of_not_mem (fun hm => hk (List.mem_dedup.mpr hm))
      by_cases hkQ : k ∈ bundleIds Q
      · have hkS : k ∈ (bundleIds Q).filter (fun cc => decide (cc ∉ bundleIds P)) :=
          List.mem_filter.mpr ⟨hkQ, by simp only [decide_eq_true_eq]; exact hk⟩
        rw [if_pos hkS]
      · have hkS : k ∉ (bundleIds Q).filter (fun cc => decide (cc ∉ bundleIds P)) :=
          fun hm => hkQ (List.mem_filter.mp hm).1
        have hlvQ : lastVal Q k = none :=
          lastVal_eq_none_of_not_mem (fun hm => hkQ (List.mem_dedup.mpr hm))
        rw [if_neg hkS, hlvP, hlvQ]
        rfl

def ex8P : List (ComponentId × Value) := [(7, 1)]

def ex8Q : List (ComponentId × Value) := [(8, 2)]

def ex8run1 : World × RootReceipts :=
  buildTemplate [Fragment.mk none ex8P [], Fragment.mk none ex8Q []] (World.mk 0 []) none

def ex8run2 : World × RootReceipts :=
  buildTemplate [Fragment.mk none ex8Q [], Fragment.mk none ex8P []]
    ex8run1.1 (some ex8run1.2)

theorem positional_identity_witness :
    ex8run1.2.map (fun p => (p.1, p.2.target)) =
      [(Anchor.auto 0, some 0), (Anchor.auto 1, some (0 + 1))] ∧
    ex8run2.2.map (fun p => (p.1, p.2.target)) =
      [(Anchor.auto 0, some 0), (Anchor.auto 1, some (0 + 1))] ∧
    ∃ d1 d2, ex8run2.1.lookup 0 = some d1 ∧ ex8run2.1.lookup (0 + 1) = some d2 ∧
      (∀ k : ComponentId, alookup d1.comps k =
        if k ∈ bundleIds ex8Q then lastVal ex8Q k else none) ∧
      (∀ k : ComponentId, alookup d2.comps k =
        if k ∈ bundleIds ex8P then lastVal ex8P k else none) :=
  positional_identity ex8P ex8Q (World.mk 0 []) (by decide)
    ex8run1.1 ex8run1.2 ex8run2.1 ex8run2.2 rfl rfl
